import Mathlib

/-!
Verification of the boost.mustache template renderer
(src/include/boost/mustache.hpp) against its specification.

The C++ code is shallowly embedded: `std::string` / `std::string_view`
become `List Char`, byte positions become `Nat` indices, the mutable
`Renderer` fields become an explicit `RendererState` record threaded
through the functions, and the virtual `Context` becomes a record of
operations `ContextOps` over an abstract state type.  The unbounded
`while` loops of the renderer (which can genuinely diverge in C++, e.g.
after a set-delimiter tag that installs empty markers) take an explicit
fuel argument; every concrete theorem instantiates the fuel generously
so that it is never exhausted on the template at hand.
-/

/-! ## String primitives (C++ std::string_view operations) -/

/-- `content[i]`; out-of-range access (undefined behaviour in C++) reads NUL. -/
def charAt (s : List Char) (i : Nat) : Char := s.getD i (Char.ofNat 0)

/-- C locale `std::isspace` on ASCII. -/
def isSpace (c : Char) : Bool :=
  c = ' ' || c = '\t' || c = '\n' || c = Char.ofNat 11 || c = Char.ofNat 12 || c = '\r'

/-- C locale `::tolower` on ASCII. -/
def lowerChar (c : Char) : Char :=
  if 'A' ≤ c ∧ c ≤ 'Z' then Char.ofNat (c.toNat + 32) else c

/-- `boost::range::transform(s, s.begin(), ::tolower)`. -/
def lowerStr (s : List Char) : List Char := s.map lowerChar

/-- Helper for `findSub`: first index `≥ i` at which `pat` occurs in the
remaining text `t` (which is the suffix of the full string starting at `i`). -/
def findSubAux (pat : List Char) : List Char → Nat → Option Nat
  | [], i => if pat.isPrefixOf ([] : List Char) then some i else none
  | c :: r, i => if pat.isPrefixOf (c :: r) then some i else findSubAux pat r (i + 1)

/-- `std::string_view::find(pat, pos)`: smallest index `≥ pos` where `pat`
occurs (fitting inside the string); `none` models `npos`. -/
def findSub (s pat : List Char) (pos : Nat) : Option Nat :=
  if pos ≤ s.length then findSubAux pat (s.drop pos) pos else none

/-- `std::string_view::find(ch, pos)`. -/
def findChar (s : List Char) (c : Char) (pos : Nat) : Option Nat :=
  findSub s [c] pos

/-- `s.substr(a, b - a)` as used by the renderer, in the *total* model:
the `Nat` subtraction truncates.  This agrees with the source on every
in-bounds use (`a ≤ b ≤ length`), but diverges where C++ diverges from
itself: with `a > size`, `std::string_view::substr` throws
`std::out_of_range` (a path made reachable by the raw-tag span overrun
of C1), and with `b < a ≤ size` the wrapped `size_t` count takes the
whole tail.  `substrE` below models those exact semantics and feeds the
exception-aware render loop `renderLoopE`, which claim C10 is settled
against; the total functions remain the model for the claims whose runs
stay in bounds. -/
def substrFT (s : List Char) (a b : Nat) : List Char := (s.drop a).take (b - a)

/-- `s.substr(a, b - a)` with the exact `std::string_view::substr`
semantics: `a > size` throws `std::out_of_range` (modelled as
`Except.error a`); otherwise the count `b - a` is computed in `size_t`,
so `b < a` wraps around and the result is the whole tail from `a`. -/
def substrE (s : List Char) (a b : Nat) : Except Nat (List Char) :=
  if a ≤ s.length then
    Except.ok (if b < a then s.drop a else (s.drop a).take (b - a))
  else Except.error a

/-- Whether an exception-aware result completed normally. -/
def isOkE {ε α : Type} : Except ε α → Bool
  | Except.ok _ => true
  | Except.error _ => false

/-- The position carried by an escaped `std::out_of_range`, if any. -/
def errPosE {α : Type} : Except Nat α → Option Nat
  | Except.ok _ => none
  | Except.error p => some p

/-! ## Tag (struct Tag) -/

/-- `Tag::type`. -/
inductive TagType where
  | Null
  | Value
  | SectionStart
  | InvertedSectionStart
  | SectionEnd
  | Partial
  | Comment
  | SetDelimiter
deriving DecidableEq, Repr

/-- `Tag::escape_mode`. -/
inductive EscapeMode where
  | Escape
  | Unescape
  | Raw
deriving DecidableEq, Repr

/-- `struct Tag` with its member initialisers.  `end_` is the C++ field
`end` (a Lean keyword). -/
structure Tag where
  type : TagType := .Null
  key : List Char := []
  start : Nat := 0
  end_ : Nat := 0
  escapeMode : EscapeMode := .Escape
  indentation : Nat := 0
deriving DecidableEq, Repr

/-! ## Renderer state (the mutable fields of class Renderer) -/

/-- The mutable data members of `Renderer`. -/
structure RendererState where
  partialStack : List (List Char) := []
  error : List Char := []
  errorPos : Option Nat := none
  errorPartial : List Char := []
  tagStartMarker : List Char := []
  tagEndMarker : List Char := []
  defaultTagStartMarker : List Char := []
  defaultTagEndMarker : List Char := []
deriving DecidableEq, Repr

/-- The renderer's error message strings, exactly as in the source. -/
def errDelimEq : List Char := "Custom delimiters may not contain '='".toList

def errMismatch : List Char := "Tag start/end key mismatch".toList

def errNoEnd : List Char := "No matching end tag found for section".toList

def errNoEndInv : List Char := "No matching end tag found for inverted section".toList

def errUnexpectedEnd : List Char := "Unexpected end tag".toList

/-- `Renderer::setError`: overwrites the message and position
unconditionally; `errorPartial` is set to the innermost entry of the
partial-call stack, and left unchanged when that stack is empty. -/
def setError (st : RendererState) (e : List Char) (pos : Nat) : RendererState :=
  { st with
    error := e
    errorPos := some pos
    errorPartial :=
      match st.partialStack.getLast? with
      | some p => p
      | none => st.errorPartial }

/-! ## Tag scanner helpers -/

/-- `Renderer::readTagName`: skip whitespace from `pos`, then read
non-whitespace characters, all within `[pos, endPos)`. -/
def readTagName (content : List Char) (pos endPos : Nat) : List Char :=
  (((content.drop pos).take (endPos - pos)).dropWhile fun c => isSpace c).takeWhile
    fun c => !isSpace c

/-- The whitespace-skipping loops of `Renderer::readSetDelimiter`,
recursing structurally on the remaining width `k = endPos - pos` (that
invariant is kept by every recursive call, so `k = 0` only ever
coincides with `pos ≥ endPos`, where the C++ loop stops too). -/
def sdSkipWsGo (content : List Char) (endPos : Nat) : Nat → Nat → Nat
  | 0, pos => pos
  | k + 1, pos =>
    if pos < endPos ∧ isSpace (charAt content pos) then sdSkipWsGo content endPos k (pos + 1)
    else pos

/-- The whitespace-skipping loops of `Renderer::readSetDelimiter`. -/
def sdSkipWs (content : List Char) (pos endPos : Nat) : Nat :=
  sdSkipWsGo content endPos (endPos - pos) pos

/-- The marker-collecting loops of `Renderer::readSetDelimiter`
(structural counter as in `sdSkipWsGo`): read non-whitespace characters
up to `endPos`; a literal `=` aborts with its position (the error case). -/
def sdCollectGo (content : List Char) (endPos : Nat) : Nat → Nat → (List Char × Nat) ⊕ Nat
  | 0, pos => Sum.inl ([], pos)
  | k + 1, pos =>
    if pos < endPos ∧ ¬ isSpace (charAt content pos) then
      if charAt content pos = '=' then Sum.inr pos
      else
        match sdCollectGo content endPos k (pos + 1) with
        | Sum.inl (tok, p) => Sum.inl (charAt content pos :: tok, p)
        | Sum.inr e => Sum.inr e
    else Sum.inl ([], pos)

/-- The marker-collecting loops of `Renderer::readSetDelimiter`. -/
def sdCollect (content : List Char) (pos endPos : Nat) : (List Char × Nat) ⊕ Nat :=
  sdCollectGo content endPos (endPos - pos) pos

/-- `Renderer::readSetDelimiter`.  Note the second token is read only up
to `endPos - 1` (the character before the closing `=`). -/
def readSetDelimiter (st : RendererState) (content : List Char) (pos endPos : Nat) :
    RendererState :=
  let p1 := sdSkipWs content pos endPos
  match sdCollect content p1 endPos with
  | Sum.inr e => setError st errDelimEq e
  | Sum.inl (startMarker, p2) =>
    let p3 := sdSkipWs content p2 endPos
    match sdCollect content p3 (endPos - 1) with
    | Sum.inr e => setError st errDelimEq e
    | Sum.inl (endMarker, _) =>
      { st with tagStartMarker := startMarker, tagEndMarker := endMarker }

/-- Backward loop of `Renderer::expandTag`: walk left from `start` to the
previous line start; `none` when a non-whitespace character is met (the
tag is not standalone on the left); otherwise the new start and the count
of non-newline whitespace (the indentation). -/
def expandBack (content : List Char) : Nat → Nat → Option (Nat × Nat)
  | 0, ind => some (0, ind)
  | start + 1, ind =>
    if charAt content start ≠ '\n' then
      if ¬ isSpace (charAt content start) then none
      else expandBack content start (if charAt content start ≠ '\n' then ind + 1 else ind)
    else some (start + 1, ind)

/-- Forward loop of `Renderer::expandTag`: walk right from `end_` up to
and including the next line terminator; `none` when a non-whitespace
character is met first. -/
def expandFwdGo (content : List Char) : Nat → Nat → Option Nat
  | 0, e => some e
  | k + 1, e =>
    if e < content.length ∧ charAt content (e - 1) ≠ '\n' then
      if ¬ isSpace (charAt content e) then none
      else expandFwdGo content k (e + 1)
    else some e

/-- Forward widening loop of `Renderer::expandTag` (the counter
`k = length - e` is an invariant of the calls, so `k = 0` only coincides
with `e ≥ length`, where the C++ loop condition fails too). -/
def expandFwd (content : List Char) (e : Nat) : Option Nat :=
  expandFwdGo content (content.length - e) e

/-- `Renderer::expandTag`: widen a structural tag's span over a wholly
whitespace standalone line; leave the tag unchanged if either side sees a
non-whitespace character. -/
def expandTag (tag : Tag) (content : List Char) : Tag :=
  match expandBack content tag.start 0 with
  | none => tag
  | some (s, ind) =>
    match expandFwd content tag.end_ with
    | none => tag
    | some e => { tag with start := s, end_ := e, indentation := ind }

/-- `Renderer::findTag`. -/
def findTag (st : RendererState) (content : List Char) (pos0 endPos0 : Nat) :
    Tag × RendererState :=
  match findSub content st.tagStartMarker pos0 with
  | none => ({}, st)
  | some tagStartPos =>
    if tagStartPos ≥ endPos0 then ({}, st)
    else
      match findSub content st.tagEndMarker (tagStartPos + st.tagStartMarker.length) with
      | none => ({}, st)
      | some te =>
        let tagEndPos := te + st.tagEndMarker.length
        let pos := tagStartPos + st.tagStartMarker.length
        let endPos := tagEndPos - st.tagEndMarker.length
        let typeChar := charAt content pos
        let (tag, st') :=
          if typeChar = '#' then
            ({ type := .SectionStart, key := readTagName content (pos + 1) endPos,
               start := tagStartPos, end_ := tagEndPos : Tag }, st)
          else if typeChar = '^' then
            ({ type := .InvertedSectionStart, key := readTagName content (pos + 1) endPos,
               start := tagStartPos, end_ := tagEndPos : Tag }, st)
          else if typeChar = '/' then
            ({ type := .SectionEnd, key := readTagName content (pos + 1) endPos,
               start := tagStartPos, end_ := tagEndPos : Tag }, st)
          else if typeChar = '!' then
            ({ type := .Comment, start := tagStartPos, end_ := tagEndPos : Tag }, st)
          else if typeChar = '>' then
            ({ type := .Partial, key := readTagName content (pos + 1) endPos,
               start := tagStartPos, end_ := tagEndPos : Tag }, st)
          else if typeChar = '=' then
            ({ type := .SetDelimiter, start := tagStartPos, end_ := tagEndPos : Tag },
             readSetDelimiter st content (pos + 1) (tagEndPos - st.tagEndMarker.length))
          else if typeChar = '&' then
            ({ type := .Value, escapeMode := .Unescape,
               key := readTagName content (pos + 1) endPos,
               start := tagStartPos, end_ := tagEndPos : Tag }, st)
          else if typeChar = '{' then
            -- raw tag: look for the extra closing brace
            match findChar content '}' (pos + 1) with
            | some endTache =>
              if endTache = tagEndPos - st.tagEndMarker.length then
                ({ type := .Value, escapeMode := .Raw,
                   key := readTagName content (pos + 1) endPos,
                   start := tagStartPos, end_ := tagEndPos + 1 : Tag }, st)
              else
                ({ type := .Value, escapeMode := .Raw,
                   key := readTagName content (pos + 1) endTache,
                   start := tagStartPos, end_ := tagEndPos : Tag }, st)
            | none =>
              -- endTache = npos: the C++ code then reads the name with
              -- endPos = npos, i.e. up to the first whitespace in the rest
              -- of the buffer (reading past the buffer is UB; the model
              -- stops at the buffer end).
              ({ type := .Value, escapeMode := .Raw,
                 key := readTagName content (pos + 1) content.length,
                 start := tagStartPos, end_ := tagEndPos : Tag }, st)
          else
            ({ type := .Value, key := readTagName content pos endPos,
               start := tagStartPos, end_ := tagEndPos : Tag }, st)
        if tag.type ≠ TagType.Value then (expandTag tag content, st') else (tag, st')

/-- The loop of `Renderer::findEndTag`, with fuel (the C++ loop can run
forever when the active markers are degenerate). -/
def findEndTagLoop (content startKey : List Char) (endPos : Nat) :
    Nat → RendererState → Nat → Int → Tag × RendererState
  | 0, st, _, _ => ({}, st)
  | fuel + 1, st, pos, depth =>
    match findTag st content pos endPos with
    | (nextTag, st') =>
      match nextTag.type with
      | .Null => (nextTag, st')
      | .SectionStart => findEndTagLoop content startKey endPos fuel st' nextTag.end_ (depth + 1)
      | .InvertedSectionStart =>
        findEndTagLoop content startKey endPos fuel st' nextTag.end_ (depth + 1)
      | .SectionEnd =>
        if depth - 1 = 0 then
          if nextTag.key ≠ startKey then ({}, setError st' errMismatch nextTag.start)
          else (nextTag, st')
        else findEndTagLoop content startKey endPos fuel st' nextTag.end_ (depth - 1)
      | _ => findEndTagLoop content startKey endPos fuel st' nextTag.end_ depth

/-- `Renderer::findEndTag`. -/
def findEndTag (fuel : Nat) (st : RendererState) (content : List Char) (startTag : Tag)
    (endPos : Nat) : Tag × RendererState :=
  findEndTagLoop content startTag.key endPos fuel st startTag.end_ 1

/-! ## HTML escaping (Renderer::escapeHtml / Renderer::unescapeHtml) -/

/-- The entity `&amp;` as written in the source. -/
def ampEnt : List Char := ['&', 'a', 'm', 'p', ';']

/-- The entity `&lt;`. -/
def ltEnt : List Char := ['&', 'l', 't', ';']

/-- The entity `&gt;`. -/
def gtEnt : List Char := ['&', 'g', 't', ';']

/-- The entity `&quot;`. -/
def quotEnt : List Char := ['&', 'q', 'u', 'o', 't', ';']

/-- The `switch` of `Renderer::escapeHtml`, for a single character. -/
def escapeChar (c : Char) : List Char :=
  if c = '&' then ampEnt
  else if c = '<' then ltEnt
  else if c = '>' then gtEnt
  else if c = '"' then quotEnt
  else [c]

/-- `Renderer::escapeHtml`: entity-encode `&`, `<`, `>`, `"`. -/
def escapeHtml (input : List Char) : List Char :=
  input.foldr (fun c acc => escapeChar c ++ acc) []

/-- One pass of `Renderer::unescapeHtml`: repeatedly find `pat` from
`pos` on, replace it by the single character `c`, and continue searching
just past the inserted character (`pos += 1`).  Fuel bounds the loop;
each replacement shortens the string, so `length + 1` is always enough. -/
def replaceAllFrom (pat : List Char) (c : Char) : Nat → List Char → Nat → List Char
  | 0, s, _ => s
  | fuel + 1, s, pos =>
    match findSub s pat pos with
    | none => s
    | some p => replaceAllFrom pat c fuel (s.take p ++ c :: s.drop (p + pat.length)) (p + 1)

/-- `Renderer::unescapeHtml`: decode the four entities, in the order of
the `replacements` table of the source. -/
def unescapeHtml (escaped : List Char) : List Char :=
  [(ltEnt, '<'), (gtEnt, '>'), (quotEnt, '"'), (ampEnt, '&')].foldl
    (fun acc pr => replaceAllFrom pr.1 pr.2 (acc.length + 1) acc 0) escaped

/-! ## The Context capability interface (class Context) -/

/-- The virtual operations of `Context`, over an abstract context state
`σ` (the concrete classes hold a mutable frame stack; here every
operation takes and, for `push`/`pop`, returns the state).  `eval` in the
source also receives the renderer and may call back into it; both
concrete contexts of the repository ignore that argument and return `{}`
without touching their state, which is what this pure signature models. -/
structure ContextOps (σ : Type) where
  stringValue : σ → List Char → List Char
  isFalse : σ → List Char → Bool
  listCount : σ → List Char → Nat
  push : σ → List Char → Int → σ
  pop : σ → σ
  canEval : σ → List Char → Bool
  eval : σ → List Char → List Char → List Char
  partialValue : σ → List Char → List Char

/-! ## The renderer loop (Renderer::render and the Partial dispatch) -/

/-- The state with which a partial expansion starts scanning: markers
reset to the configured defaults, the partial's name pushed on the
partial-call stack (`Renderer::render`, Partial case, before the
recursive call). -/
def partialEntryState (st : RendererState) (key : List Char) : RendererState :=
  { st with
    tagStartMarker := st.defaultTagStartMarker
    tagEndMarker := st.defaultTagEndMarker
    partialStack := st.partialStack ++ [key] }

/-- The indentation-insertion loop of the Partial case: insert
`ind` spaces after every interior line terminator (`pos` then jumps past
the inserted spaces). -/
def indentLines : Nat → List Char → Nat → Nat → List Char
  | 0, content, _, _ => content
  | fuel + 1, content, pos, ind =>
    match findChar content '\n' pos with
    | none => content
    | some p =>
      if p < content.length - 1 then
        indentLines fuel (content.take (p + 1) ++ List.replicate ind ' ' ++ content.drop (p + 1))
          (p + ind + 1) ind
      else indentLines fuel content (p + ind + 1) ind

/-- The body of the `Tag::type::Partial` case of `Renderer::render`:
save the active markers, reset them to the defaults, push the partial
name, fetch and (if the tag was indented) re-indent the partial content,
render it as a fresh top-level span through `rl`, then pop the name and
restore the saved markers — unconditionally, whether or not the inner
render recorded an error. -/
def dispatchPartial {σ : Type} (C : ContextOps σ)
    (rl : List Char → Nat → Nat → RendererState → σ → List Char × RendererState × σ)
    (tag : Tag) (st : RendererState) (s : σ) : List Char × RendererState × σ :=
  let savedStart := st.tagStartMarker
  let savedEnd := st.tagEndMarker
  let st1 := partialEntryState st tag.key
  let pc0 := C.partialValue s tag.key
  let indentPrefix := if tag.indentation > 0 then List.replicate tag.indentation ' ' else []
  let pc := if tag.indentation > 0 then indentLines (pc0.length + 1) pc0 0 tag.indentation else pc0
  let r := rl pc 0 pc.length st1 s
  (indentPrefix ++ r.1,
   { r.2.1 with
     partialStack := (r.2.1).partialStack.dropLast
     tagStartMarker := savedStart
     tagEndMarker := savedEnd },
   r.2.2)

/-- The `for (size_t i = 0; i < listCount; ++i)` loop of the
SectionStart case: push `(key, i)`, render the inner span through `rl`,
pop — with no error check between iterations, exactly as in the source
(an iteration after an error renders nothing but still pushes and pops). -/
def renderList {σ : Type} (C : ContextOps σ)
    (rl : List Char → Nat → Nat → RendererState → σ → List Char × RendererState × σ)
    (templ key : List Char) (a b : Nat) :
    Nat → Nat → RendererState → σ → List Char × RendererState × σ
  | 0, _, st, s => ([], st, s)
  | r + 1, i, st, s =>
    let s1 := C.push s key (Int.ofNat i)
    match rl templ a b st s1 with
    | (o1, st1, s2) =>
      let s3 := C.pop s2
      match renderList C rl templ key a b r (i + 1) st1 s3 with
      | (o2, st2, s4) => (o1 ++ o2, st2, s4)

/-- The private recursive `Renderer::render(templ, startPos, endPos,
context)`.  The `while (!m_errorPos)` loop becomes recursion: each
dispatched tag contributes its text and recurses on the rest of the
span; the error check at the head of each call is the loop guard, so a
call entered with an error set returns at once with nothing appended. -/
def renderLoop {σ : Type} (C : ContextOps σ) :
    Nat → List Char → Nat → Nat → RendererState → σ → List Char × RendererState × σ
  | 0, _, _, _, st, s => ([], st, s)
  | fuel + 1, templ, lastTagEnd, endPos, st, s =>
    if st.errorPos.isSome then ([], st, s)
    else
      match findTag st templ lastTagEnd endPos with
      | (tag, st1) =>
        match tag.type with
        | .Null => (substrFT templ lastTagEnd endPos, st1, s)
        | .Value =>
          let v0 := C.stringValue s tag.key
          let v :=
            match tag.escapeMode with
            | .Escape => escapeHtml v0
            | .Unescape => unescapeHtml v0
            | .Raw => v0
          match renderLoop C fuel templ tag.end_ endPos st1 s with
          | (rest, st2, s2) => (substrFT templ lastTagEnd tag.start ++ v ++ rest, st2, s2)
        | .SectionStart =>
          match findEndTag fuel st1 templ tag endPos with
          | (endTag, st2) =>
            match endTag.type with
            | .Null =>
              let st3 := if st2.errorPos.isSome then st2 else setError st2 errNoEnd tag.start
              match renderLoop C fuel templ lastTagEnd endPos st3 s with
              | (rest, st4, s2) => (substrFT templ lastTagEnd tag.start ++ rest, st4, s2)
            | _ =>
              let n := C.listCount s tag.key
              if n > 0 then
                match renderList C (renderLoop C fuel) templ tag.key tag.end_ endTag.start n 0 st2 s with
                | (body, st3, s2) =>
                  match renderLoop C fuel templ endTag.end_ endPos st3 s2 with
                  | (rest, st4, s3) =>
                    (substrFT templ lastTagEnd tag.start ++ body ++ rest, st4, s3)
              else if C.canEval s tag.key then
                let body := C.eval s tag.key (substrFT templ tag.end_ endTag.start)
                match renderLoop C fuel templ endTag.end_ endPos st2 s with
                | (rest, st3, s2) =>
                  (substrFT templ lastTagEnd tag.start ++ body ++ rest, st3, s2)
              else if ¬ C.isFalse s tag.key then
                let s1 := C.push s tag.key (-1)
                match renderLoop C fuel templ tag.end_ endTag.start st2 s1 with
                | (body, st3, s2) =>
                  let s3 := C.pop s2
                  match renderLoop C fuel templ endTag.end_ endPos st3 s3 with
                  | (rest, st4, s4) =>
                    (substrFT templ lastTagEnd tag.start ++ body ++ rest, st4, s4)
              else
                match renderLoop C fuel templ endTag.end_ endPos st2 s with
                | (rest, st3, s2) => (substrFT templ lastTagEnd tag.start ++ rest, st3, s2)
        | .InvertedSectionStart =>
          match findEndTag fuel st1 templ tag endPos with
          | (endTag, st2) =>
            match endTag.type with
            | .Null =>
              let st3 := if st2.errorPos.isSome then st2 else setError st2 errNoEndInv tag.start
              match renderLoop C fuel templ lastTagEnd endPos st3 s with
              | (rest, st4, s2) => (substrFT templ lastTagEnd tag.start ++ rest, st4, s2)
            | _ =>
              if C.isFalse s tag.key then
                match renderLoop C fuel templ tag.end_ endTag.start st2 s with
                | (body, st3, s2) =>
                  match renderLoop C fuel templ endTag.end_ endPos st3 s2 with
                  | (rest, st4, s3) =>
                    (substrFT templ lastTagEnd tag.start ++ body ++ rest, st4, s3)
              else
                match renderLoop C fuel templ endTag.end_ endPos st2 s with
                | (rest, st3, s2) => (substrFT templ lastTagEnd tag.start ++ rest, st3, s2)
        | .Partial =>
          match dispatchPartial C (renderLoop C fuel) tag st1 s with
          | (piece, st2, s2) =>
            match renderLoop C fuel templ tag.end_ endPos st2 s2 with
            | (rest, st3, s3) => (substrFT templ lastTagEnd tag.start ++ piece ++ rest, st3, s3)
        | .SetDelimiter =>
          match renderLoop C fuel templ tag.end_ endPos st1 s with
          | (rest, st2, s2) => (substrFT templ lastTagEnd tag.start ++ rest, st2, s2)
        | .Comment =>
          match renderLoop C fuel templ tag.end_ endPos st1 s with
          | (rest, st2, s2) => (substrFT templ lastTagEnd tag.start ++ rest, st2, s2)
        | .SectionEnd =>
          let st2 := setError st1 errUnexpectedEnd tag.start
          match renderLoop C fuel templ tag.end_ endPos st2 s with
          | (rest, st3, s2) => (substrFT templ lastTagEnd tag.start ++ rest, st3, s2)

/-- The renderer's state right after construction / at the top of the
public `render`: no error, markers equal to the configured defaults. -/
def initState (defStart defEnd : List Char) : RendererState :=
  { partialStack := [], error := [], errorPos := none, errorPartial := [],
    tagStartMarker := defStart, tagEndMarker := defEnd,
    defaultTagStartMarker := defStart, defaultTagEndMarker := defEnd }

/-- The default tag start marker. -/
def defaultStart : List Char := ['{', '{']

/-- The default tag end marker. -/
def defaultEnd : List Char := ['}', '}']

/-- The public `Renderer::render(templ, context)` with the default
`{{`/`}}` markers: resets the per-call state and scans the whole
template. -/
def renderTemplate {σ : Type} (C : ContextOps σ) (fuel : Nat) (templ : List Char) (s : σ) :
    List Char × RendererState × σ :=
  renderLoop C fuel templ 0 templ.length (initState defaultStart defaultEnd) s

/-! ## JSON-backed context (class JsonContext)

`boost::json::value` is modelled without its floating-point alternative
(`double` values are not representable exactly; no claim depends on
them).  `num` covers the integral numbers (`int64`). -/

/-- A `boost::json::value` (without the floating-point alternative). -/
inductive Json where
  | null
  | bool (b : Bool)
  | num (n : Int)
  | str (s : List Char)
  | arr (xs : List Json)
  | obj (fields : List (List Char × Json))

/-- First field of a `boost::json::object` with the given key. -/
def jsonObjFind (fields : List (List Char × Json)) (key : List Char) : Option Json :=
  match fields with
  | [] => none
  | (k, v) :: rest => if k = key then some v else jsonObjFind rest key

/-- The stack walk of `JsonContext::getValue`: the frame stack is kept
most-recent-first (the reverse of the C++ vector, whose iteration is
reversed).  Only object frames are searched; a miss moves to the next
frame; an empty walk yields `{}`, i.e. null. -/
def jsonLookup : List Json → List Char → Json
  | [], _ => Json.null
  | c :: rest, key =>
    match c with
    | Json.obj fields =>
      match jsonObjFind fields key with
      | some v => v
      | none => jsonLookup rest key
    | _ => jsonLookup rest key

/-- `JsonContext::getValue`: `"."` is the current top frame; otherwise
the stack walk. -/
def jsonGetValue (stack : List Json) (key : List Char) : Json :=
  if key = ['.'] then stack.headD Json.null else jsonLookup stack key

/-- `JsonContext::isFalse`: the `is_bool` / `is_string` / `is_null`
dispatch of the source. -/
def jsonIsFalse (stack : List Json) (key : List Char) : Bool :=
  match jsonGetValue stack key with
  | Json.bool b => !b
  | Json.str s => lowerStr s = "false".toList || s = []
  | Json.null => true
  | _ => false

/-- `std::to_string` on `int64`. -/
def intToChars (n : Int) : List Char := (toString n).toList

/-- `JsonContext::stringValue` on a resolved value (`is_double` is the
unmodelled floating-point case; `is_number` here is the integral case). -/
def jsonValueToString (v : Json) : List Char :=
  match v with
  | Json.str s => s
  | Json.bool b => if b then "true".toList else "false".toList
  | Json.num n => intToChars n
  | _ => []

/-- `JsonContext::stringValue`. -/
def jsonStringValue (stack : List Json) (key : List Char) : List Char :=
  jsonValueToString (jsonGetValue stack key)

/-- `JsonContext::listCount`. -/
def jsonListCount (stack : List Json) (key : List Char) : Nat :=
  match jsonGetValue stack key with
  | Json.arr xs => xs.length
  | _ => 0

/-- `JsonContext::push` (new frames go to the front of the list):
null resolves to a fresh null frame; a non-negative index into an array
pushes the element, or a null frame when out of range; anything else
pushes the resolved value itself. -/
def jsonPush (stack : List Json) (key : List Char) (index : Int) : List Json :=
  match jsonGetValue stack key with
  | Json.null => Json.null :: stack
  | Json.arr xs =>
    if index ≥ 0 then
      (match xs.get? index.toNat with
       | some x => x
       | none => Json.null) :: stack
    else Json.arr xs :: stack
  | v => v :: stack

/-- `JsonContext::pop`: drop the top frame; no-op on an empty stack. -/
def jsonPop (stack : List Json) : List Json :=
  match stack with
  | [] => []
  | _ :: rest => rest

/-- `JsonContext` as a `ContextOps` over its frame stack (no partial
resolver installed: `partialValue` yields `{}`; `canEval`/`eval` are the
`Context` base-class defaults). -/
def jsonOps : ContextOps (List Json) where
  stringValue := jsonStringValue
  isFalse := jsonIsFalse
  listCount := jsonListCount
  push := jsonPush
  pop := jsonPop
  canEval := fun _ _ => false
  eval := fun _ _ _ => []
  partialValue := fun _ _ => []

/-! ## PropertyTree-backed context (class PropertyTreeContext)

`boost::property_tree::ptree` is a tree whose every node carries a data
string and an ordered list of (key, subtree) children. -/

/-- A `boost::property_tree::ptree` node. -/
inductive PTree where
  | node (data : List Char) (children : List (List Char × PTree))

/-- Node data. -/
def PTree.data : PTree → List Char
  | PTree.node d _ => d

/-- Node children. -/
def PTree.children : PTree → List (List Char × PTree)
  | PTree.node _ cs => cs

/-- An empty ptree (`ptree{}`). -/
def ptEmpty : PTree := PTree.node [] []

/-- First child with the given (single-segment) key, as ptree `find`. -/
def ptFindChild (t : PTree) (seg : List Char) : Option PTree :=
  match t.children.find? (fun p => p.1 = seg) with
  | some p => some p.2
  | none => none

/-- Split a ptree path on the `.` separator. -/
def ptSplitPath (key : List Char) : List (List Char) :=
  key.splitOn '.'

/-- `ptree::get_child_optional`: walk the `.`-separated path. -/
def ptGetChildOpt (t : PTree) (key : List Char) : Option PTree :=
  (ptSplitPath key).foldlM (fun cur seg => ptFindChild cur seg) t

/-- `PropertyTreeContext::getValue`: `"."` is the top frame; otherwise
walk the frame stack (most-recent-first) and return the first
`get_child_optional` hit; an overall miss yields an empty ptree. -/
def ptGetValue (stack : List PTree) (key : List Char) : PTree :=
  if key = ['.'] then stack.headD ptEmpty
  else
    match stack with
    | [] => ptEmpty
    | t :: rest =>
      match ptGetChildOpt t key with
      | some c => c
      | none => ptGetValue rest key

/-- `get_value<bool>` through boost's stream translator, on canonical
encodings: the plain-numeric extraction accepts `0`/`1`, the boolalpha
retry accepts exactly `true`/`false`; anything else throws
`ptree_bad_data` (`none`).  (Exotic numeral spellings and surrounding
whitespace, which the C++ stream would also accept, are not modelled;
no theorem below depends on them.) -/
def ptParseBool (d : List Char) : Option Bool :=
  if d = "0".toList then some false
  else if d = "1".toList then some true
  else if d = "true".toList then some true
  else if d = "false".toList then some false
  else none

/-- `PropertyTreeContext::isFalse`: try `get_value<bool>`; on
`ptree_bad_data`, fall back to the string comparison (`get_value<string>`
is the identity translator on the node's data and never throws, so the
`catch (...)` branches of the source are unreachable). -/
def ptIsFalse (stack : List PTree) (key : List Char) : Bool :=
  let v := ptGetValue stack key
  match ptParseBool v.data with
  | some b => !b
  | none => lowerStr v.data = "false".toList || v.data = []

/-! ## Structural form of the unescape pass (proof device for the
round-trip property)

`replaceRec p0 ps c` is the left-to-right single-pass view of
`replaceAllFrom (p0 :: ps) c`: scan the string; wherever the pattern is a
prefix, emit `c` and continue right after the consumed pattern (which is
exactly where the loop's `pos = found + 1` resumes its search). -/

/-- Structural recursion equivalent of one `unescapeHtml` pass. -/
def replaceRec (p0 : Char) (ps : List Char) (c : Char) : List Char → List Char
  | [] => []
  | x :: r =>
    if (p0 :: ps).isPrefixOf (x :: r) then c :: replaceRec p0 ps c (r.drop ps.length)
    else x :: replaceRec p0 ps c r
termination_by l => l.length
decreasing_by
  · simp [List.length_drop]; omega
  · simp

/-- Per-character encoding after the `&lt;` pass has run. -/
def escChar1 (c : Char) : List Char :=
  if c = '&' then ampEnt
  else if c = '<' then ['<']
  else if c = '>' then gtEnt
  else if c = '"' then quotEnt
  else [c]

/-- Per-character encoding after the `&lt;` and `&gt;` passes. -/
def escChar2 (c : Char) : List Char :=
  if c = '&' then ampEnt
  else if c = '<' then ['<']
  else if c = '>' then ['>']
  else if c = '"' then quotEnt
  else [c]

/-- Per-character encoding after all passes but `&amp;`. -/
def escChar3 (c : Char) : List Char :=
  if c = '&' then ampEnt else [c]

/-- Concatenated per-character encoding. -/
def escMap (f : Char → List Char) (s : List Char) : List Char :=
  s.foldr (fun c acc => f c ++ acc) []

/-! ## Instrumented context (proof device for push/pop balance)

`wrapOps C` behaves exactly like `C` on the first component of its state
and records every `push`/`pop` the renderer issues in the second. -/

/-- A recorded scope operation. -/
inductive COp where
  | push
  | pop
deriving DecidableEq, Repr

/-- Wrap a context so that it logs the renderer's push/pop calls. -/
def wrapOps {σ : Type} (C : ContextOps σ) : ContextOps (σ × List COp) where
  stringValue := fun p k => C.stringValue p.1 k
  isFalse := fun p k => C.isFalse p.1 k
  listCount := fun p k => C.listCount p.1 k
  push := fun p k i => (C.push p.1 k i, p.2 ++ [COp.push])
  pop := fun p => (C.pop p.1, p.2 ++ [COp.pop])
  canEval := fun p k => C.canEval p.1 k
  eval := fun p k t => C.eval p.1 k t
  partialValue := fun p k => C.partialValue p.1 k

/-- Run a push/pop word against a stack depth: `none` means some prefix
pops an empty stack (the depth would go below the starting point). -/
def dyckAux : List COp → Nat → Option Nat
  | [], d => some d
  | COp.push :: r, d => dyckAux r (d + 1)
  | COp.pop :: r, d =>
    match d with
    | 0 => none
    | d' + 1 => dyckAux r d'

/-! ## Exception-aware render loop

`renderLoop` above is total: it truncates the one `substr` call that
throws in C++ (reachable only through the C1 raw-tag span overrun).  The
functions below model the same source code with the exact
`std::string_view::substr` semantics: a result `Except.error p` is an
escaped `std::out_of_range` (raised at position `p`), and — exactly as a
C++ exception unwinding the stack — it propagates out of every enclosing
recursive call *skipping* the `context->pop()` after a section's inner
render, the partial-stack `pop_back` and the delimiter restore of the
Partial case, and the remaining list-loop iterations.  The renderer
state and context returned alongside the error are the ones at the
throw point, mutations included. -/

/-- The list-section loop, exception-aware: a throw inside an
iteration's render skips that iteration's `pop` and aborts the loop. -/
def renderListE {σ : Type} (C : ContextOps σ)
    (rl : List Char → Nat → Nat → RendererState → σ →
      Except Nat (List Char) × RendererState × σ)
    (templ key : List Char) (a b : Nat) :
    Nat → Nat → RendererState → σ → Except Nat (List Char) × RendererState × σ
  | 0, _, st, s => (Except.ok [], st, s)
  | r + 1, i, st, s =>
    let s1 := C.push s key (Int.ofNat i)
    match rl templ a b st s1 with
    | (Except.error p, st1, s2) => (Except.error p, st1, s2)
    | (Except.ok o1, st1, s2) =>
      let s3 := C.pop s2
      match renderListE C rl templ key a b r (i + 1) st1 s3 with
      | (Except.error p, st2, s4) => (Except.error p, st2, s4)
      | (Except.ok o2, st2, s4) => (Except.ok (o1 ++ o2), st2, s4)

/-- The (possibly re-indented) content a partial tag expands to:
`partialValue`, with `indentation` spaces inserted after every interior
line terminator when the tag was indented. -/
def partialContentE {σ : Type} (C : ContextOps σ) (tag : Tag) (s : σ) : List Char :=
  if tag.indentation > 0 then
    indentLines ((C.partialValue s tag.key).length + 1) (C.partialValue s tag.key) 0
      tag.indentation
  else C.partialValue s tag.key

/-- The Partial dispatch, exception-aware: a throw inside the partial's
render escapes before the partial-stack pop and the marker restore. -/
def dispatchPartialE {σ : Type} (C : ContextOps σ)
    (rl : List Char → Nat → Nat → RendererState → σ →
      Except Nat (List Char) × RendererState × σ)
    (tag : Tag) (st : RendererState) (s : σ) :
    Except Nat (List Char) × RendererState × σ :=
  match rl (partialContentE C tag s) 0 (partialContentE C tag s).length
      (partialEntryState st tag.key) s with
  | (Except.error p, st2, s2) => (Except.error p, st2, s2)
  | (Except.ok sub, st2, s2) =>
    (Except.ok ((if tag.indentation > 0 then List.replicate tag.indentation ' ' else []) ++ sub),
     { st2 with
       partialStack := st2.partialStack.dropLast
       tagStartMarker := st.tagStartMarker
       tagEndMarker := st.tagEndMarker },
     s2)

/-- The private recursive `Renderer::render`, exception-aware: identical
to `renderLoop` except that every `templ.substr` goes through `substrE`
and a throw unwinds through all the pending frames. -/
def renderLoopE {σ : Type} (C : ContextOps σ) :
    Nat → List Char → Nat → Nat → RendererState → σ →
      Except Nat (List Char) × RendererState × σ
  | 0, _, _, _, st, s => (Except.ok [], st, s)
  | fuel + 1, templ, lastTagEnd, endPos, st, s =>
    if st.errorPos.isSome then (Except.ok [], st, s)
    else
      match findTag st templ lastTagEnd endPos with
      | (tag, st1) =>
        match tag.type with
        | .Null =>
          match substrE templ lastTagEnd endPos with
          | Except.error p => (Except.error p, st1, s)
          | Except.ok piece => (Except.ok piece, st1, s)
        | _ =>
          match substrE templ lastTagEnd tag.start with
          | Except.error p => (Except.error p, st1, s)
          | Except.ok pre =>
            match tag.type with
            | .Null => (Except.ok pre, st1, s)
            | .Value =>
              let v0 := C.stringValue s tag.key
              let v :=
                match tag.escapeMode with
                | .Escape => escapeHtml v0
                | .Unescape => unescapeHtml v0
                | .Raw => v0
              match renderLoopE C fuel templ tag.end_ endPos st1 s with
              | (Except.error p, st2, s2) => (Except.error p, st2, s2)
              | (Except.ok rest, st2, s2) => (Except.ok (pre ++ v ++ rest), st2, s2)
            | .SectionStart =>
              match findEndTag fuel st1 templ tag endPos with
              | (endTag, st2) =>
                match endTag.type with
                | .Null =>
                  let st3 := if st2.errorPos.isSome then st2 else setError st2 errNoEnd tag.start
                  match renderLoopE C fuel templ lastTagEnd endPos st3 s with
                  | (Except.error p, st4, s2) => (Except.error p, st4, s2)
                  | (Except.ok rest, st4, s2) => (Except.ok (pre ++ rest), st4, s2)
                | _ =>
                  let n := C.listCount s tag.key
                  if n > 0 then
                    match renderListE C (renderLoopE C fuel) templ tag.key tag.end_
                        endTag.start n 0 st2 s with
                    | (Except.error p, st3, s2) => (Except.error p, st3, s2)
                    | (Except.ok body, st3, s2) =>
                      match renderLoopE C fuel templ endTag.end_ endPos st3 s2 with
                      | (Except.error p, st4, s3) => (Except.error p, st4, s3)
                      | (Except.ok rest, st4, s3) =>
                        (Except.ok (pre ++ body ++ rest), st4, s3)
                  else if C.canEval s tag.key then
                    match substrE templ tag.end_ endTag.start with
                    | Except.error p => (Except.error p, st2, s)
                    | Except.ok innerText =>
                      let body := C.eval s tag.key innerText
                      match renderLoopE C fuel templ endTag.end_ endPos st2 s with
                      | (Except.error p, st3, s2) => (Except.error p, st3, s2)
                      | (Except.ok rest, st3, s2) =>
                        (Except.ok (pre ++ body ++ rest), st3, s2)
                  else if ¬ C.isFalse s tag.key then
                    let s1 := C.push s tag.key (-1)
                    match renderLoopE C fuel templ tag.end_ endTag.start st2 s1 with
                    | (Except.error p, st3, s2) =>
                      -- the throw escapes before `context->pop()`
                      (Except.error p, st3, s2)
                    | (Except.ok body, st3, s2) =>
                      let s3 := C.pop s2
                      match renderLoopE C fuel templ endTag.end_ endPos st3 s3 with
                      | (Except.error p, st4, s4) => (Except.error p, st4, s4)
                      | (Except.ok rest, st4, s4) =>
                        (Except.ok (pre ++ body ++ rest), st4, s4)
                  else
                    match renderLoopE C fuel templ endTag.end_ endPos st2 s with
                    | (Except.error p, st3, s2) => (Except.error p, st3, s2)
                    | (Except.ok rest, st3, s2) => (Except.ok (pre ++ rest), st3, s2)
            | .InvertedSectionStart =>
              match findEndTag fuel st1 templ tag endPos with
              | (endTag, st2) =>
                match endTag.type with
                | .Null =>
                  let st3 :=
                    if st2.errorPos.isSome then st2 else setError st2 errNoEndInv tag.start
                  match renderLoopE C fuel templ lastTagEnd endPos st3 s with
                  | (Except.error p, st4, s2) => (Except.error p, st4, s2)
                  | (Except.ok rest, st4, s2) => (Except.ok (pre ++ rest), st4, s2)
                | _ =>
                  if C.isFalse s tag.key then
                    match renderLoopE C fuel templ tag.end_ endTag.start st2 s with
                    | (Except.error p, st3, s2) => (Except.error p, st3, s2)
                    | (Except.ok body, st3, s2) =>
                      match renderLoopE C fuel templ endTag.end_ endPos st3 s2 with
                      | (Except.error p, st4, s3) => (Except.error p, st4, s3)
                      | (Except.ok rest, st4, s3) =>
                        (Except.ok (pre ++ body ++ rest), st4, s3)
                  else
                    match renderLoopE C fuel templ endTag.end_ endPos st2 s with
                    | (Except.error p, st3, s2) => (Except.error p, st3, s2)
                    | (Except.ok rest, st3, s2) => (Except.ok (pre ++ rest), st3, s2)
            | .Partial =>
              match dispatchPartialE C (renderLoopE C fuel) tag st1 s with
              | (Except.error p, st2, s2) => (Except.error p, st2, s2)
              | (Except.ok piece, st2, s2) =>
                match renderLoopE C fuel templ tag.end_ endPos st2 s2 with
                | (Except.error p, st3, s3) => (Except.error p, st3, s3)
                | (Except.ok rest, st3, s3) => (Except.ok (pre ++ piece ++ rest), st3, s3)
            | .SetDelimiter =>
              match renderLoopE C fuel templ tag.end_ endPos st1 s with
              | (Except.error p, st2, s2) => (Except.error p, st2, s2)
              | (Except.ok rest, st2, s2) => (Except.ok (pre ++ rest), st2, s2)
            | .Comment =>
              match renderLoopE C fuel templ tag.end_ endPos st1 s with
              | (Except.error p, st2, s2) => (Except.error p, st2, s2)
              | (Except.ok rest, st2, s2) => (Except.ok (pre ++ rest), st2, s2)
            | .SectionEnd =>
              let st2 := setError st1 errUnexpectedEnd tag.start
              match renderLoopE C fuel templ tag.end_ endPos st2 s with
              | (Except.error p, st3, s2) => (Except.error p, st3, s2)
              | (Except.ok rest, st3, s2) => (Except.ok (pre ++ rest), st3, s2)

/-- A `JsonContext` whose partial resolver serves the raw-tag fragment
`{{{x}}` (the C1 failing input) under the name `p` — the concrete
context of the C10 counterexample. -/
def reviewOps : ContextOps (List Json) :=
  { jsonOps with
    partialValue := fun _ k =>
      if k = ['p'] then ['{', '{', '{', 'x', '}', '}'] else [] }

/-! ## Theorems -/

/-- C1: the claimed invariant `span.start <= span.end <= length(template)`
fails on the code.  On the template `{{{x}}` (a raw tag whose extra
closing brace is missing, length 6) `findTag`, scanning the whole
template with the default markers, takes the raw-tag branch: the first
`}` after the inner text sits exactly at the end marker, so the code
executes `++tag.end` on a span that already reached the end of the
template and returns `end = 7 > 6`.  The renderer then continues from
`lastTagEnd = 7` and its next `substr(7, ...)` on the length-6 view is
out of bounds (it throws `std::out_of_range` in C++). -/
theorem c1_raw_tag_span_out_of_bounds :
    (['{', '{', '{', 'x', '}', '}'] : List Char).length = 6 ∧
    (findTag (initState defaultStart defaultEnd) ['{', '{', '{', 'x', '}', '}'] 0 6).1 =
      { type := .Value, key := ['x'], start := 0, end_ := 7, escapeMode := .Raw } := by
  decide

/-- C2 counterexample: rendering `{{#a}}x{{/b}}` (here against a
JSON-backed context with an empty root object) does *not* return the
output `"x"` — the mismatch error is raised by the section matcher
before the section's inner text is ever copied, so the returned output
is empty; nor is the recorded message the lower-case spelling quoted by
the claim. -/
theorem c2_mismatch_output_not_x :
    (renderTemplate jsonOps 20 "{{#a}}x{{/b}}".toList [Json.obj []]).1 ≠ "x".toList ∧
    (renderTemplate jsonOps 20 "{{#a}}x{{/b}}".toList [Json.obj []]).2.1.error ≠
      "tag start/end key mismatch".toList := by
  decide

/-- C2 amended: rendering `{{#a}}x{{/b}}` against *any* context records
the error `Tag start/end key mismatch` with position 7 — the close tag's
position — and returns the empty output (the context is never consulted
and is returned unchanged). -/
theorem c2_mismatch_error_characterization {σ : Type} (C : ContextOps σ) (s : σ) :
    renderTemplate C 20 "{{#a}}x{{/b}}".toList s =
      ([], { initState defaultStart defaultEnd with
             error := errMismatch, errorPos := some 7 }, s) := rfl

/-- C3 counterexample: the first error does *not* always win.  In
`{{#a}}{{==}}{{/b}}` the malformed set-delimiter tag sets the error
`Custom delimiters may not contain '='` at position 9 (first conjunct
pair: exactly the `findTag` call that the run's `findEndTag` performs at
position 6 with the pristine renderer state), yet the section matcher
keeps scanning and the later key-mismatch `setError` — unguarded, unlike
the ones in the render loop — overwrites it: the full render ends with
`Tag start/end key mismatch` at position 12. -/
theorem c3_first_error_overwritten :
    (findTag (initState defaultStart defaultEnd) "{{#a}}{{==}}{{/b}}".toList 6 18).2.errorPos =
      some 9 ∧
    (findTag (initState defaultStart defaultEnd) "{{#a}}{{==}}{{/b}}".toList 6 18).2.error =
      errDelimEq ∧
    (renderTemplate jsonOps 20 "{{#a}}{{==}}{{/b}}".toList [Json.obj []]).2.1.errorPos =
      some 12 ∧
    (renderTemplate jsonOps 20 "{{#a}}{{==}}{{/b}}".toList [Json.obj []]).2.1.error =
      errMismatch := by
  decide

/-- C3 amended: once an error has been set, every enclosing recursive
render call stops scanning at its next loop check: a `renderLoop` call
entered with `errorPos` set contributes no further output and returns
its state and context unchanged (so the error recorded in `st` is
exactly the error the caller sees).  First-error-wins, however, only
holds for the render loops themselves; `findEndTag` keeps scanning after
an error and can overwrite it (see the counterexample). -/
theorem c3_error_stops_renderLoop {σ : Type} (C : ContextOps σ) (fuel : Nat)
    (templ : List Char) (a b : Nat) (st : RendererState) (s : σ)
    (h : st.errorPos.isSome = true) :
    renderLoop C fuel templ a b st s = ([], st, s) := by
  cases fuel with
  | zero => rfl
  | succ n => simp [renderLoop, h]

/-- C3 witness: the stop-on-error theorem applied at a concrete state
with an error set. -/
theorem c3_error_stops_renderLoop_witness :
    renderLoop jsonOps 5 "ab{{n}}".toList 0 7
        (setError (initState defaultStart defaultEnd) errMismatch 3) [Json.null] =
      ([], setError (initState defaultStart defaultEnd) errMismatch 3, [Json.null]) :=
  c3_error_stops_renderLoop jsonOps 5 "ab{{n}}".toList 0 7
    (setError (initState defaultStart defaultEnd) errMismatch 3) [Json.null] (by decide)

/-- C4 counterexample: in the PropertyTree-backed context the value `0`
(a non-empty numeric string, for which the claim requires `isFalse` to
be false) *is* falsy: `get_value<bool>` parses the data string `0` as
boolean false before the string fallback is ever reached. -/
theorem c4_ptree_zero_is_falsy :
    ptIsFalse [PTree.node [] [(['x'], PTree.node ['0'] [])]] ['x'] = true := by
  decide

/-- C4 amended: for the JSON-backed context the claim's characterization
is exact — `isFalse` is true precisely for null (which is also what an
absent key resolves to), boolean false, the empty string and the string
`false` in any letter case, and false for everything else (numbers
including 0, and all arrays and objects).  For the PropertyTree-backed
context, `isFalse` is instead true exactly when the node's data string
parses as boolean false — which includes the numeric string `0` — or
fails to parse as a bool and is empty (as it is for every pure
object/array node and for absent keys) or case-insensitively `false`. -/
theorem c4_isFalse_characterization :
    (∀ (stack : List Json) (key : List Char),
      jsonIsFalse stack key = true ↔
        (jsonGetValue stack key = Json.null ∨
         jsonGetValue stack key = Json.bool false ∨
         ∃ s, jsonGetValue stack key = Json.str s ∧
           (lowerStr s = "false".toList ∨ s = []))) ∧
    (∀ (stack : List PTree) (key : List Char),
      ptIsFalse stack key = true ↔
        (ptParseBool (ptGetValue stack key).data = some false ∨
         (ptParseBool (ptGetValue stack key).data = none ∧
          (lowerStr (ptGetValue stack key).data = "false".toList ∨
           (ptGetValue stack key).data = [])))) ∧
    jsonIsFalse [Json.obj [(['x'], Json.num 0)]] ['x'] = false ∧
    jsonIsFalse [Json.obj [(['x'], Json.arr [Json.num 1])]] ['x'] = false ∧
    jsonIsFalse [Json.obj [(['x'], Json.str "FALSE".toList)]] ['x'] = true ∧
    jsonIsFalse [Json.obj []] ['x'] = true := by
  refine ⟨?_, ?_, by decide, by decide, by decide, by decide⟩
  · intro stack key
    unfold jsonIsFalse
    cases h : jsonGetValue stack key <;> simp
  · intro stack key
    unfold ptIsFalse
    cases h : ptParseBool (ptGetValue stack key).data with
    | none => simp [h]
    | some b => cases b <;> simp [h]

/-- C5: delimiter isolation of partials.  For every context, every inner
render function (in particular one that ends with an error recorded),
every tag and every renderer state: after the Partial dispatch returns,
the active delimiter pair equals the caller's pair from before the
dispatch; and the state with which the partial's content starts
scanning (`partialEntryState`, built inside `dispatchPartial` before the
recursive render) carries the configured default pair, whatever custom
pair was active in the caller. -/
theorem c5_partial_delimiter_isolation {σ : Type} (C : ContextOps σ)
    (rl : List Char → Nat → Nat → RendererState → σ → List Char × RendererState × σ)
    (tag : Tag) (st : RendererState) (s : σ) :
    (dispatchPartial C rl tag st s).2.1.tagStartMarker = st.tagStartMarker ∧
    (dispatchPartial C rl tag st s).2.1.tagEndMarker = st.tagEndMarker ∧
    (partialEntryState st tag.key).tagStartMarker = st.defaultTagStartMarker ∧
    (partialEntryState st tag.key).tagEndMarker = st.defaultTagEndMarker :=
  ⟨rfl, rfl, rfl, rfl⟩

/-- C8 counterexample: scanning `{{ a b }}` does not produce the key
`a b` (the full trimmed inner text, as the claim states). -/
theorem c8_key_not_full_inner_text :
    (findTag (initState defaultStart defaultEnd) "{{ a b }}".toList 0 9).1.key ≠
      "a b".toList := by
  decide

/-- C8 amended: for a default Value tag, `readTagName` skips the leading
whitespace and then stops at the *first* whitespace character, so the
key is the first whitespace-separated token of the inner text, not the
whole trimmed inner text: scanning `{{ a b }}` yields a Value tag with
key `a`. -/
theorem c8_default_value_tag_key :
    (findTag (initState defaultStart defaultEnd) "{{ a b }}".toList 0 9).1 =
      { type := .Value, key := ['a'], start := 0, end_ := 9 } := by
  decide

/-! ## Lemmas for the escaping round trip (C6) -/

theorem escMap_cons (f : Char → List Char) (x : Char) (r : List Char) :
    escMap f (x :: r) = f x ++ escMap f r := rfl

theorem escapeHtml_eq_escMap (s : List Char) : escapeHtml s = escMap escapeChar s := rfl

theorem replaceRec_ne (ps : List Char) (c x : Char) (t : List Char) (h : x ≠ '&') :
    replaceRec '&' ps c (x :: t) = x :: replaceRec '&' ps c t := by
  rw [replaceRec]
  simp [List.isPrefixOf, Ne.symm h]

theorem findSubAux_ge (pat : List Char) (t : List Char) (i p : Nat)
    (h : findSubAux pat t i = some p) : i ≤ p := by
  induction t generalizing i with
  | nil =>
    unfold findSubAux at h
    split at h
    · simp at h; omega
    · simp at h
  | cons x r ih =>
    unfold findSubAux at h
    split at h
    · simp at h; omega
    · have := ih (i + 1) h
      omega

theorem findSubAux_fits (pat : List Char) (t : List Char) (i p : Nat)
    (h : findSubAux pat t i = some p) :
    (p - i) + pat.length ≤ t.length ∧ pat.isPrefixOf (t.drop (p - i)) = true := by
  induction t generalizing i with
  | nil =>
    unfold findSubAux at h
    split at h
    · next hpre =>
      simp only [Option.some.injEq] at h
      subst h
      have : pat = [] := by
        cases pat with
        | nil => rfl
        | cons a as => simp [List.isPrefixOf] at hpre
      subst this
      simp [List.isPrefixOf]
    · simp at h
  | cons x r ih =>
    unfold findSubAux at h
    split at h
    · next hpre =>
      simp only [Option.some.injEq] at h
      subst h
      refine ⟨?_, by simpa using hpre⟩
      simpa using (List.isPrefixOf_iff_prefix.mp hpre).length_le
    · have hge := findSubAux_ge pat r (i + 1) p h
      obtain ⟨h1, h2⟩ := ih (i + 1) h
      have hpi : p - i = (p - (i + 1)) + 1 := by omega
      refine ⟨by simp only [List.length_cons]; omega, ?_⟩
      rw [hpi]
      simpa using h2

theorem replaceRec_of_no_occ (p0 : Char) (ps : List Char) (c : Char) (t : List Char) (i : Nat)
    (h : findSubAux (p0 :: ps) t i = none) : replaceRec p0 ps c t = t := by
  induction t generalizing i with
  | nil => simp [replaceRec]
  | cons x r ih =>
    unfold findSubAux at h
    split at h
    · simp at h
    · next hpre =>
      rw [replaceRec]
      simp only [Bool.not_eq_true] at hpre
      rw [if_neg (by simp [hpre])]
      rw [ih (i + 1) h]

theorem replaceRec_step (p0 : Char) (ps : List Char) (c : Char) :
    ∀ (t : List Char) (i p : Nat), findSubAux (p0 :: ps) t i = some p →
      replaceRec p0 ps c t =
        t.take (p - i) ++ c :: replaceRec p0 ps c (t.drop ((p - i) + (ps.length + 1))) := by
  intro t
  induction t with
  | nil =>
    intro i p h
    unfold findSubAux at h
    split at h <;> simp_all [List.isPrefixOf]
  | cons x r ih =>
    intro i p h
    unfold findSubAux at h
    split at h
    · next hpre =>
      simp only [Option.some.injEq] at h
      subst h
      simp only [Nat.sub_self, List.take_zero, List.nil_append, List.drop_succ_cons,
        Nat.zero_add]
      rw [replaceRec, if_pos hpre]
    · next hpre =>
      have hge := findSubAux_ge (p0 :: ps) r (i + 1) p h
      have hstep := ih (i + 1) p h
      have hpi : p - i = (p - (i + 1)) + 1 := by omega
      have hd : List.drop (p - (i + 1) + (ps.length + 1)) r
          = List.drop (p - (i + 1) + 1 + (ps.length + 1)) (x :: r) := by
        rw [Nat.add_right_comm (p - (i + 1)) 1 (ps.length + 1), List.drop_succ_cons]
      rw [replaceRec, if_neg (by simpa using hpre), hstep, hpi, List.take_succ_cons, hd]
      simp

theorem replaceAllFrom_eq_rec (p0 : Char) (ps : List Char) (c : Char) :
    ∀ (fuel : Nat) (s : List Char) (pos : Nat), s.length + 1 ≤ fuel + pos →
      replaceAllFrom (p0 :: ps) c fuel s pos = s.take pos ++ replaceRec p0 ps c (s.drop pos) := by
  intro fuel
  induction fuel with
  | zero =>
    intro s pos hf
    rw [replaceAllFrom]
    rw [List.take_of_length_le (by omega), List.drop_of_length_le (by omega)]
    simp [replaceRec]
  | succ fuel ih =>
    intro s pos hf
    cases hfs : findSub s (p0 :: ps) pos with
    | none =>
      simp only [replaceAllFrom, hfs]
      unfold findSub at hfs
      split at hfs
      · next hle =>
        rw [replaceRec_of_no_occ p0 ps c _ pos hfs]
        exact (List.take_append_drop pos s).symm
      · next hgt =>
        rw [List.take_of_length_le (by omega), List.drop_of_length_le (by omega)]
        simp [replaceRec]
    | some p =>
      simp only [replaceAllFrom, hfs]
      unfold findSub at hfs
      split at hfs
      case isFalse => simp at hfs
      case isTrue hle =>
        have hge : pos ≤ p := findSubAux_ge _ _ _ _ hfs
        obtain ⟨hfit, hpre⟩ := findSubAux_fits _ _ _ _ hfs
        rw [List.length_drop] at hfit
        have hplen : p + (ps.length + 1) ≤ s.length := by
          simp only [List.length_cons] at hfit; omega
        rw [replaceRec_step p0 ps c _ pos p hfs]
        have htake : s.take pos ++ (s.drop pos).take (p - pos) = s.take p := by
          rw [← List.take_add]
          congr 1
          omega
        have hdrop : (s.drop pos).drop ((p - pos) + (ps.length + 1)) =
            s.drop (p + (ps.length + 1)) := by
          rw [List.drop_drop]
          congr 1
          omega
        have hlen' : (s.take p ++ c :: s.drop (p + (p0 :: ps).length)).length + 1 ≤
            fuel + (p + 1) := by
          simp only [List.length_append, List.length_take, List.length_cons,
            List.length_drop]
          omega
        rw [ih _ _ hlen']
        have h1 : p ⊓ s.length = p := by omega
        have htk : (s.take p ++ c :: s.drop (p + (p0 :: ps).length)).take (p + 1) =
            s.take p ++ [c] := by
          rw [List.take_append_eq_append_take, List.length_take, h1, List.take_take]
          have e1 : (p + 1) ⊓ p = p := by omega
          have e2 : p + 1 - p = 1 := by omega
          rw [e1, e2]
          simp
        have hdr : (s.take p ++ c :: s.drop (p + (p0 :: ps).length)).drop (p + 1) =
            s.drop (p + (ps.length + 1)) := by
          rw [List.drop_append_eq_append_drop, List.length_take, h1]
          have e2 : p + 1 - p = 1 := by omega
          rw [e2, List.drop_of_length_le (by rw [List.length_take, h1]; omega)]
          simp
        rw [htk, hdr]
        rw [← htake, ← hdrop]
        simp

theorem pass_lt (s : List Char) :
    replaceRec '&' ['l', 't', ';'] '<' (escMap escapeChar s) = escMap escChar1 s := by
  induction s with
  | nil => simp [escMap, replaceRec]
  | cons x r ih =>
    rw [escMap_cons, escMap_cons]
    by_cases h1 : x = '&'
    · subst h1
      simp +decide [escapeChar, escChar1, ampEnt, replaceRec, List.isPrefixOf, replaceRec_ne, ih]
    · by_cases h2 : x = '<'
      · subst h2
        simp +decide [escapeChar, escChar1, ltEnt, replaceRec, List.isPrefixOf, ih]
      · by_cases h3 : x = '>'
        · subst h3
          simp +decide [escapeChar, escChar1, gtEnt, replaceRec, List.isPrefixOf, replaceRec_ne, ih]
        · by_cases h4 : x = '"'
          · subst h4
            simp +decide [escapeChar, escChar1, quotEnt, replaceRec, List.isPrefixOf, replaceRec_ne, ih]
          · simp only [escapeChar, escChar1, if_neg h1, if_neg h2, if_neg h3, if_neg h4]
            rw [List.singleton_append, List.singleton_append, replaceRec_ne _ _ _ _ h1, ih]

theorem pass_gt (s : List Char) :
    replaceRec '&' ['g', 't', ';'] '>' (escMap escChar1 s) = escMap escChar2 s := by
  induction s with
  | nil => simp [escMap, replaceRec]
  | cons x r ih =>
    rw [escMap_cons, escMap_cons]
    by_cases h1 : x = '&'
    · subst h1
      simp +decide [escChar1, escChar2, ampEnt, replaceRec, List.isPrefixOf, replaceRec_ne, ih]
    · by_cases h2 : x = '<'
      · subst h2
        simp +decide [escChar1, escChar2, replaceRec_ne, ih]
      · by_cases h3 : x = '>'
        · subst h3
          simp +decide [escChar1, escChar2, gtEnt, replaceRec, List.isPrefixOf, ih]
        · by_cases h4 : x = '"'
          · subst h4
            simp +decide [escChar1, escChar2, quotEnt, replaceRec, List.isPrefixOf, replaceRec_ne, ih]
          · simp only [escChar1, escChar2, if_neg h1, if_neg h2, if_neg h3, if_neg h4]
            rw [List.singleton_append, List.singleton_append, replaceRec_ne _ _ _ _ h1, ih]

theorem pass_quot (s : List Char) :
    replaceRec '&' ['q', 'u', 'o', 't', ';'] '"' (escMap escChar2 s) = escMap escChar3 s := by
  induction s with
  | nil => simp [escMap, replaceRec]
  | cons x r ih =>
    rw [escMap_cons, escMap_cons]
    by_cases h1 : x = '&'
    · subst h1
      simp +decide [escChar2, escChar3, ampEnt, replaceRec, List.isPrefixOf, replaceRec_ne, ih]
    · by_cases h4 : x = '"'
      · subst h4
        simp +decide [escChar2, escChar3, quotEnt, replaceRec, List.isPrefixOf, ih]
      · by_cases h2 : x = '<'
        · subst h2
          simp +decide [escChar2, escChar3, replaceRec_ne, ih]
        · by_cases h3 : x = '>'
          · subst h3
            simp +decide [escChar2, escChar3, replaceRec_ne, ih]
          · simp only [escChar2, escChar3, if_neg h1, if_neg h2, if_neg h3, if_neg h4]
            rw [List.singleton_append, List.singleton_append, replaceRec_ne _ _ _ _ h1, ih]

theorem pass_amp (s : List Char) :
    replaceRec '&' ['a', 'm', 'p', ';'] '&' (escMap escChar3 s) = s := by
  induction s with
  | nil => simp [escMap, replaceRec]
  | cons x r ih =>
    rw [escMap_cons]
    by_cases h1 : x = '&'
    · subst h1
      simp +decide [escChar3, ampEnt, replaceRec, List.isPrefixOf, ih]
    · simp only [escChar3, if_neg h1]
      rw [List.singleton_append, replaceRec_ne _ _ _ _ h1, ih]

/-- C6: the escaping round trip.  For every string `s` (in particular
every string containing characters from `&`, `<`, `>`, `\x22`),
`unescapeHtml (escapeHtml s) = s`: `escapeHtml` entity-encodes exactly
those four characters, and the four sequential find/replace passes of
`unescapeHtml` decode exactly the corresponding entities, each pass
consuming precisely the occurrences produced by `escapeHtml` (every `&`
in the escaped text starts an entity, so no pass can match inside or
across another entity's encoding). -/
theorem c6_unescape_escape_roundtrip (s : List Char) :
    unescapeHtml (escapeHtml s) = s := by
  have hb : ∀ (p0 : Char) (ps : List Char) (c : Char) (x : List Char),
      replaceAllFrom (p0 :: ps) c (x.length + 1) x 0 = replaceRec p0 ps c x := by
    intro p0 ps c x
    have h := replaceAllFrom_eq_rec p0 ps c (x.length + 1) x 0 (by omega)
    simpa using h
  unfold unescapeHtml
  simp only [List.foldl_cons, List.foldl_nil, ltEnt, gtEnt, quotEnt, ampEnt]
  simp only [hb]
  rw [escapeHtml_eq_escMap, pass_lt, pass_gt, pass_quot, pass_amp]

/-! ## One-step dispatch lemmas for the render loop

With a variable fuel the equations of `renderLoop` unfold exactly one
iteration; these two lemmas package the Null dispatch (copy the rest of
the span) and the truthy-section dispatch (`listCount = 0`, no eval
hook, not false: push, render the inner span, pop, continue after the
end tag). -/

theorem renderLoop_step_null {σ : Type} (C : ContextOps σ) (fuel : Nat) (templ : List Char)
    (a b : Nat) (st st1 : RendererState) (s : σ) (tag : Tag)
    (hst : st.errorPos = none)
    (hft : findTag st templ a b = (tag, st1))
    (hty : tag.type = .Null) :
    renderLoop C (fuel + 1) templ a b st s = (substrFT templ a b, st1, s) := by
  simp only [renderLoop, hst, hft, hty, Option.isSome_none, Bool.false_eq_true, if_false]

theorem renderLoop_step_truthy_section {σ : Type} (C : ContextOps σ) (fuel : Nat)
    (templ : List Char) (a b : Nat) (st st1 st2 : RendererState) (s : σ) (tag endTag : Tag)
    (hst : st.errorPos = none)
    (hft : findTag st templ a b = (tag, st1))
    (hty : tag.type = .SectionStart)
    (het : findEndTag fuel st1 templ tag b = (endTag, st2))
    (hety : endTag.type = .SectionEnd)
    (hn : C.listCount s tag.key = 0)
    (he : C.canEval s tag.key = false)
    (hf : C.isFalse s tag.key = false) :
    renderLoop C (fuel + 1) templ a b st s =
      (substrFT templ a tag.start ++
         (renderLoop C fuel templ tag.end_ endTag.start st2 (C.push s tag.key (-1))).1 ++
         (renderLoop C fuel templ endTag.end_ b
            (renderLoop C fuel templ tag.end_ endTag.start st2 (C.push s tag.key (-1))).2.1
            (C.pop (renderLoop C fuel templ tag.end_ endTag.start st2
               (C.push s tag.key (-1))).2.2)).1,
       (renderLoop C fuel templ endTag.end_ b
          (renderLoop C fuel templ tag.end_ endTag.start st2 (C.push s tag.key (-1))).2.1
          (C.pop (renderLoop C fuel templ tag.end_ endTag.start st2
             (C.push s tag.key (-1))).2.2)).2) := by
  simp only [renderLoop, hst, hft, hty, het, hety, hn, he, hf, Option.isSome_none,
    Bool.false_eq_true, if_false, Nat.lt_irrefl, Bool.not_false]
  rfl

/-- C9: standalone-line trimming.  Rendering
`A\n{{#x}}\nB\n{{/x}}\nC\n` against any context in which the key `x`
is truthy (`listCount` 0, no eval hook, `isFalse` false) produces
exactly `A\nB\nC\n`: the widened section tags consume their whole
standalone lines including the line terminators. -/
theorem c9_standalone_trimming {σ : Type} (C : ContextOps σ) (s : σ)
    (hn : C.listCount s ['x'] = 0)
    (he : C.canEval s ['x'] = false)
    (hf : C.isFalse s ['x'] = false) :
    (renderTemplate C 20 "A\n{{#x}}\nB\n{{/x}}\nC\n".toList s).1 = "A\nB\nC\n".toList := by
  have hft : findTag (initState defaultStart defaultEnd) "A\n{{#x}}\nB\n{{/x}}\nC\n".toList 0 20 =
      ({ type := .SectionStart, key := ['x'], start := 2, end_ := 9 },
       initState defaultStart defaultEnd) := by decide
  have het : findEndTag 19 (initState defaultStart defaultEnd)
      "A\n{{#x}}\nB\n{{/x}}\nC\n".toList
      { type := .SectionStart, key := ['x'], start := 2, end_ := 9 } 20 =
      ({ type := .SectionEnd, key := ['x'], start := 11, end_ := 18 },
       initState defaultStart defaultEnd) := by decide
  have hmain := renderLoop_step_truthy_section C 19 "A\n{{#x}}\nB\n{{/x}}\nC\n".toList 0 20
    (initState defaultStart defaultEnd) (initState defaultStart defaultEnd)
    (initState defaultStart defaultEnd) s
    { type := .SectionStart, key := ['x'], start := 2, end_ := 9 }
    { type := .SectionEnd, key := ['x'], start := 11, end_ := 18 }
    rfl hft rfl het rfl hn he hf
  have hb : renderLoop C 19 "A\n{{#x}}\nB\n{{/x}}\nC\n".toList 9 11
      (initState defaultStart defaultEnd) (C.push s ['x'] (-1)) =
      ("B\n".toList, initState defaultStart defaultEnd, C.push s ['x'] (-1)) := by
    have := renderLoop_step_null C 18 "A\n{{#x}}\nB\n{{/x}}\nC\n".toList 9 11
      (initState defaultStart defaultEnd) (initState defaultStart defaultEnd)
      (C.push s ['x'] (-1)) {} rfl (by decide) rfl
    exact this
  have hr : renderLoop C 19 "A\n{{#x}}\nB\n{{/x}}\nC\n".toList 18 20
      (initState defaultStart defaultEnd) (C.pop (C.push s ['x'] (-1))) =
      ("C\n".toList, initState defaultStart defaultEnd, C.pop (C.push s ['x'] (-1))) := by
    have := renderLoop_step_null C 18 "A\n{{#x}}\nB\n{{/x}}\nC\n".toList 18 20
      (initState defaultStart defaultEnd) (initState defaultStart defaultEnd)
      (C.pop (C.push s ['x'] (-1))) {} rfl (by decide) rfl
    exact this
  show (renderLoop C (19 + 1) "A\n{{#x}}\nB\n{{/x}}\nC\n".toList 0 20
      (initState defaultStart defaultEnd) s).1 = "A\nB\nC\n".toList
  rw [hmain]
  simp only [hb, hr]
  decide


/-- C9 witness: the trimming theorem applied to the JSON context
`x = true`. -/
theorem c9_standalone_trimming_witness :
    (renderTemplate jsonOps 20 "A\n{{#x}}\nB\n{{/x}}\nC\n".toList
        [Json.obj [(['x'], Json.bool true)]]).1 = "A\nB\nC\n".toList :=
  c9_standalone_trimming jsonOps [Json.obj [(['x'], Json.bool true)]]
    (by decide) (by decide) (by decide)


/-- C7: list iteration order.  For a section key bound to a three-element
list `[A, B, C]` (`listCount = 3 > 0`), rendering `{{#k}}{{.}}{{/k}}`
against the JSON context produces exactly the concatenation, in index
order, of the per-element renders (`{{.}}` resolves to the element that
`push (k, i)` placed on top of the scope stack, escaped as a Value), and
the context stack is back at the single root frame afterwards with the
renderer state unchanged. -/
theorem c7_list_iteration_order (A B C : Json) :
    (renderTemplate jsonOps 20 "{{#k}}{{.}}{{/k}}".toList
        [Json.obj [(['k'], Json.arr [A, B, C])]]).1 =
      escapeHtml (jsonValueToString A) ++ escapeHtml (jsonValueToString B) ++
        escapeHtml (jsonValueToString C) ∧
    (renderTemplate jsonOps 20 "{{#k}}{{.}}{{/k}}".toList
        [Json.obj [(['k'], Json.arr [A, B, C])]]).2 =
      (initState defaultStart defaultEnd, [Json.obj [(['k'], Json.arr [A, B, C])]]) := by
  have hL : renderTemplate jsonOps 20 "{{#k}}{{.}}{{/k}}".toList
      [Json.obj [(['k'], Json.arr [A, B, C])]] =
      (((escapeHtml (jsonValueToString A) ++ []) ++
        ((escapeHtml (jsonValueToString B) ++ []) ++
         ((escapeHtml (jsonValueToString C) ++ []) ++ []))) ++ [],
       initState defaultStart defaultEnd,
       [Json.obj [(['k'], Json.arr [A, B, C])]]) := rfl
  rw [hL]
  simp

/-! ## Push/pop balance of the render loop (C10)

The balance is proved of the exception-aware loop `renderLoopE` and holds
exactly on the non-throwing runs: an escaping `std::out_of_range` (reachable
via the C1 raw-tag span overrun) unwinds past the pops, as the C10
counterexample below exhibits. -/

theorem dyckAux_append (xs ys : List COp) :
    ∀ d, dyckAux (xs ++ ys) d = (dyckAux xs d).bind (fun e => dyckAux ys e) := by
  induction xs with
  | nil => intro d; simp [dyckAux]
  | cons x r ih =>
    intro d
    cases x with
    | push => simpa [dyckAux] using ih (d + 1)
    | pop =>
      cases d with
      | zero => simp [dyckAux]
      | succ d' => simpa [dyckAux] using ih d'

theorem dyckAux_mono (w : List COp) :
    ∀ d k, dyckAux w d = some k → dyckAux w (d + 1) = some (k + 1) := by
  induction w with
  | nil => intro d k h; simp [dyckAux] at h ⊢; omega
  | cons x r ih =>
    intro d k h
    cases x with
    | push => exact ih (d + 1) k h
    | pop =>
      cases d with
      | zero => simp [dyckAux] at h
      | succ d' => exact ih d' k h

theorem dyck_append (w1 w2 : List COp) (h1 : dyckAux w1 0 = some 0)
    (h2 : dyckAux w2 0 = some 0) : dyckAux (w1 ++ w2) 0 = some 0 := by
  simp [dyckAux_append, h1, h2]

theorem dyck_block (w1 w2 : List COp) (h1 : dyckAux w1 0 = some 0)
    (h2 : dyckAux w2 0 = some 0) :
    dyckAux (COp.push :: (w1 ++ COp.pop :: w2)) 0 = some 0 := by
  have h1' := dyckAux_mono w1 0 0 h1
  simp [dyckAux, dyckAux_append, h1', h2]

theorem dispatchPartialE_state {σ : Type} (C : ContextOps σ)
    (rl : List Char → Nat → Nat → RendererState → σ →
      Except Nat (List Char) × RendererState × σ)
    (tag : Tag) (st : RendererState) (s : σ) :
    (dispatchPartialE C rl tag st s).2.2 =
      (rl (partialContentE C tag s) 0 (partialContentE C tag s).length
        (partialEntryState st tag.key) s).2.2 ∧
    isOkE (dispatchPartialE C rl tag st s).1 =
      isOkE (rl (partialContentE C tag s) 0 (partialContentE C tag s).length
        (partialEntryState st tag.key) s).1 := by
  simp only [dispatchPartialE]
  rcases hx : rl (partialContentE C tag s) 0 (partialContentE C tag s).length
      (partialEntryState st tag.key) s with ⟨resx, stx, sx⟩
  cases resx <;> exact ⟨rfl, rfl⟩

set_option maxHeartbeats 3200000 in
theorem renderLoopE_log {σ : Type} (C : ContextOps σ) :
    ∀ (fuel : Nat) (templ : List Char) (a b : Nat) (st : RendererState) (s : σ) (l : List COp),
      ∃ w, ((renderLoopE (wrapOps C) fuel templ a b st (s, l)).2.2).2 = l ++ w ∧
        (isOkE (renderLoopE (wrapOps C) fuel templ a b st (s, l)).1 = true →
          dyckAux w 0 = some 0) := by
  intro fuel
  induction fuel with
  | zero =>
    intro templ a b st s l
    exact ⟨[], by simp [renderLoopE], fun _ => rfl⟩
  | succ fuel ih =>
    intro templ a b st s l
    by_cases hst : st.errorPos.isSome = true
    · exact ⟨[], by simp [renderLoopE, hst], fun _ => rfl⟩
    · rcases hft : findTag st templ a b with ⟨tag, st1⟩
      simp only [renderLoopE, if_neg hst, hft]
      cases htty : tag.type with
      | Null =>
        cases hpre : substrE templ a b with
        | error p => exact ⟨[], by simp [hpre], fun _ => rfl⟩
        | ok piece => exact ⟨[], by simp [hpre], fun _ => rfl⟩
      | Value =>
        cases hpre : substrE templ a tag.start with
        | error p => exact ⟨[], by simp [hpre], fun _ => rfl⟩
        | ok pre =>
          obtain ⟨w1, hw1, hb1⟩ := ih templ tag.end_ b st1 s l
          rcases hr : renderLoopE (wrapOps C) fuel templ tag.end_ b st1 (s, l)
            with ⟨res1, st2, s2⟩
          rw [hr] at hw1 hb1
          replace hw1 : s2.2 = l ++ w1 := hw1
          cases res1 with
          | error p => exact ⟨w1, by simp [hpre, hr, hw1], fun hok => by simp [isOkE] at hok⟩
          | ok rest => exact ⟨w1, by simp [hpre, hr, hw1], fun _ => hb1 rfl⟩
      | SectionStart =>
        cases hpre : substrE templ a tag.start with
        | error p => exact ⟨[], by simp [hpre], fun _ => rfl⟩
        | ok pre =>
          rcases het : findEndTag fuel st1 templ tag b with ⟨endTag, st2⟩
          cases hety : endTag.type
          · -- Null: no matching end tag
            obtain ⟨w1, hw1, hb1⟩ := ih templ a b
              (if st2.errorPos.isSome = true then st2 else setError st2 errNoEnd tag.start) s l
            rcases hr : renderLoopE (wrapOps C) fuel templ a b
                (if st2.errorPos.isSome = true then st2 else setError st2 errNoEnd tag.start)
                (s, l) with ⟨res1, st3, s3⟩
            rw [hr] at hw1 hb1
            replace hw1 : s3.2 = l ++ w1 := hw1
            cases res1 with
            | error p =>
              exact ⟨w1, by simp [hpre, hr, hw1], fun hok => by simp [isOkE] at hok⟩
            | ok rest => exact ⟨w1, by simp [hpre, hr, hw1], fun _ => hb1 rfl⟩
          all_goals {
            by_cases hn : (wrapOps C).listCount (s, l) tag.key > 0
            · simp only [if_pos hn]
              have hlist : ∀ (r : Nat), ∀ (i : Nat) (st' : RendererState) (p : σ × List COp),
                  ∃ w, ((renderListE (wrapOps C) (renderLoopE (wrapOps C) fuel) templ tag.key
                      tag.end_ endTag.start r i st' p).2.2).2 = p.2 ++ w ∧
                    (isOkE (renderListE (wrapOps C) (renderLoopE (wrapOps C) fuel) templ tag.key
                      tag.end_ endTag.start r i st' p).1 = true → dyckAux w 0 = some 0) := by
                intro r
                induction r with
                | zero =>
                  intro i st' p
                  exact ⟨[], by simp [renderListE], fun _ => rfl⟩
                | succ r ihr =>
                  intro i st' p
                  obtain ⟨w1, hw1, hb1⟩ := ih templ tag.end_ endTag.start st'
                    (C.push p.1 tag.key (Int.ofNat i)) (p.2 ++ [COp.push])
                  rcases hr1 : renderLoopE (wrapOps C) fuel templ tag.end_ endTag.start st'
                      ((wrapOps C).push p tag.key (Int.ofNat i)) with ⟨res1, st3, s3⟩
                  have hr1' : renderLoopE (wrapOps C) fuel templ tag.end_ endTag.start st'
                      (C.push p.1 tag.key (Int.ofNat i), p.2 ++ [COp.push]) = (res1, st3, s3) :=
                    hr1
                  rw [hr1'] at hw1 hb1
                  replace hw1 : s3.2 = (p.2 ++ [COp.push]) ++ w1 := hw1
                  cases res1 with
                  | error pe =>
                    refine ⟨COp.push :: w1, ?_, fun hok => ?_⟩
                    · simp only [renderListE, hr1]
                      show s3.2 = p.2 ++ (COp.push :: w1)
                      rw [hw1]; simp
                    · simp only [renderListE, hr1, isOkE] at hok
                      exact Bool.noConfusion hok
                  | ok o1 =>
                    obtain ⟨w2, hw2, hb2⟩ := ihr (i + 1) st3 ((wrapOps C).pop s3)
                    rcases hr2 : renderListE (wrapOps C) (renderLoopE (wrapOps C) fuel) templ
                        tag.key tag.end_ endTag.start r (i + 1) st3 ((wrapOps C).pop s3)
                      with ⟨res2, st4, s4⟩
                    rw [hr2] at hw2 hb2
                    replace hw2 : s4.2 = ((wrapOps C).pop s3).2 ++ w2 := hw2
                    have hpop : ((wrapOps C).pop s3).2 = s3.2 ++ [COp.pop] := rfl
                    rw [hpop, hw1] at hw2
                    refine ⟨COp.push :: (w1 ++ COp.pop :: w2), ?_, fun hok => ?_⟩
                    · cases res2 with
                      | error pe =>
                        simp only [renderListE, hr1, hr2]
                        show s4.2 = p.2 ++ (COp.push :: (w1 ++ COp.pop :: w2))
                        rw [hw2]; simp
                      | ok o2 =>
                        simp only [renderListE, hr1, hr2]
                        show s4.2 = p.2 ++ (COp.push :: (w1 ++ COp.pop :: w2))
                        rw [hw2]; simp
                    · cases res2 with
                      | error pe =>
                        simp only [renderListE, hr1, hr2, isOkE] at hok
                        exact Bool.noConfusion hok
                      | ok o2 => exact dyck_block w1 w2 (hb1 rfl) (hb2 rfl)
              rcases hrl : renderListE (wrapOps C) (renderLoopE (wrapOps C) fuel) templ tag.key
                  tag.end_ endTag.start ((wrapOps C).listCount (s, l) tag.key) 0 st2 (s, l)
                with ⟨res1, st3, s3⟩
              obtain ⟨w1, hw1, hb1⟩ := hlist ((wrapOps C).listCount (s, l) tag.key) 0 st2 (s, l)
              rw [hrl] at hw1 hb1
              replace hw1 : s3.2 = l ++ w1 := hw1
              cases res1 with
              | error pe =>
                exact ⟨w1, by simp [hpre, hrl, hw1], fun hok => by simp [isOkE] at hok⟩
              | ok body =>
                obtain ⟨w2, hw2, hb2⟩ := ih templ endTag.end_ b st3 s3.1 s3.2
                simp only [Prod.mk.eta] at hw2 hb2
                rcases hr2 : renderLoopE (wrapOps C) fuel templ endTag.end_ b st3 s3
                  with ⟨res2, st4, s4⟩
                rw [hr2] at hw2 hb2
                replace hw2 : s4.2 = s3.2 ++ w2 := hw2
                cases res2 with
                | error pe =>
                  refine ⟨w1 ++ w2, ?_, fun hok => by simp [hpre, hrl, hr2, isOkE] at hok⟩
                  simp only [hpre, hrl, hr2]
                  show s4.2 = l ++ (w1 ++ w2)
                  rw [hw2, hw1, List.append_assoc]
                | ok rest =>
                  refine ⟨w1 ++ w2, ?_, fun _ => dyck_append w1 w2 (hb1 rfl) (hb2 rfl)⟩
                  simp only [hpre, hrl, hr2]
                  show s4.2 = l ++ (w1 ++ w2)
                  rw [hw2, hw1, List.append_assoc]
            · simp only [if_neg hn]
              by_cases hce : (wrapOps C).canEval (s, l) tag.key = true
              · simp only [if_pos hce]
                cases hinner : substrE templ tag.end_ endTag.start with
                | error pe => exact ⟨[], by simp [hpre, hinner], fun _ => rfl⟩
                | ok innerText =>
                  obtain ⟨w1, hw1, hb1⟩ := ih templ endTag.end_ b st2 s l
                  rcases hr : renderLoopE (wrapOps C) fuel templ endTag.end_ b st2 (s, l)
                    with ⟨res1, st3, s3⟩
                  rw [hr] at hw1 hb1
                  replace hw1 : s3.2 = l ++ w1 := hw1
                  cases res1 with
                  | error pe =>
                    exact ⟨w1, by simp [hpre, hinner, hr, hw1],
                      fun hok => by simp [isOkE] at hok⟩
                  | ok rest => exact ⟨w1, by simp [hpre, hinner, hr, hw1], fun _ => hb1 rfl⟩
              · simp only [if_neg hce]
                by_cases hif : ¬ (wrapOps C).isFalse (s, l) tag.key = true
                · simp only [if_pos hif]
                  obtain ⟨w1, hw1, hb1⟩ := ih templ tag.end_ endTag.start st2
                    (C.push s tag.key (-1)) (l ++ [COp.push])
                  rcases hr1 : renderLoopE (wrapOps C) fuel templ tag.end_ endTag.start st2
                      ((wrapOps C).push (s, l) tag.key (-1)) with ⟨res1, st3, s3⟩
                  have hr1' : renderLoopE (wrapOps C) fuel templ tag.end_ endTag.start st2
                      (C.push s tag.key (-1), l ++ [COp.push]) = (res1, st3, s3) := hr1
                  rw [hr1'] at hw1 hb1
                  replace hw1 : s3.2 = (l ++ [COp.push]) ++ w1 := hw1
                  cases res1 with
                  | error pe =>
                    refine ⟨COp.push :: w1, ?_, fun hok => ?_⟩
                    · simp only [hpre, hr1]
                      show s3.2 = l ++ (COp.push :: w1)
                      rw [hw1]; simp
                    · simp only [hpre, hr1, isOkE] at hok
                      exact Bool.noConfusion hok
                  | ok body =>
                    obtain ⟨w2, hw2, hb2⟩ := ih templ endTag.end_ b st3
                      (C.pop s3.1) (s3.2 ++ [COp.pop])
                    rcases hr2 : renderLoopE (wrapOps C) fuel templ endTag.end_ b st3
                        ((wrapOps C).pop s3) with ⟨res2, st4, s4⟩
                    have hr2' : renderLoopE (wrapOps C) fuel templ endTag.end_ b st3
                        (C.pop s3.1, s3.2 ++ [COp.pop]) = (res2, st4, s4) := hr2
                    rw [hr2'] at hw2 hb2
                    replace hw2 : s4.2 = (s3.2 ++ [COp.pop]) ++ w2 := hw2
                    rw [hw1] at hw2
                    refine ⟨COp.push :: (w1 ++ COp.pop :: w2), ?_, fun hok => ?_⟩
                    · cases res2 with
                      | error pe =>
                        simp only [hpre, hr1, hr2]
                        show s4.2 = l ++ (COp.push :: (w1 ++ COp.pop :: w2))
                        rw [hw2]; simp
                      | ok rest =>
                        simp only [hpre, hr1, hr2]
                        show s4.2 = l ++ (COp.push :: (w1 ++ COp.pop :: w2))
                        rw [hw2]; simp
                    · cases res2 with
                      | error pe =>
                        simp only [hpre, hr1, hr2, isOkE] at hok
                        exact Bool.noConfusion hok
                      | ok rest => exact dyck_block w1 w2 (hb1 rfl) (hb2 rfl)
                · simp only [if_neg hif]
                  obtain ⟨w1, hw1, hb1⟩ := ih templ endTag.end_ b st2 s l
                  rcases hr : renderLoopE (wrapOps C) fuel templ endTag.end_ b st2 (s, l)
                    with ⟨res1, st3, s3⟩
                  rw [hr] at hw1 hb1
                  replace hw1 : s3.2 = l ++ w1 := hw1
                  cases res1 with
                  | error pe =>
                    exact ⟨w1, by simp [hpre, hr, hw1], fun hok => by simp [isOkE] at hok⟩
                  | ok rest => exact ⟨w1, by simp [hpre, hr, hw1], fun _ => hb1 rfl⟩
          }
      | InvertedSectionStart =>
        cases hpre : substrE templ a tag.start with
        | error p => exact ⟨[], by simp [hpre], fun _ => rfl⟩
        | ok pre =>
          rcases het : findEndTag fuel st1 templ tag b with ⟨endTag, st2⟩
          cases hety : endTag.type
          · obtain ⟨w1, hw1, hb1⟩ := ih templ a b
              (if st2.errorPos.isSome = true then st2 else setError st2 errNoEndInv tag.start) s l
            rcases hr : renderLoopE (wrapOps C) fuel templ a b
                (if st2.errorPos.isSome = true then st2 else setError st2 errNoEndInv tag.start)
                (s, l) with ⟨res1, st3, s3⟩
            rw [hr] at hw1 hb1
            replace hw1 : s3.2 = l ++ w1 := hw1
            cases res1 with
            | error p =>
              exact ⟨w1, by simp [hpre, hr, hw1], fun hok => by simp [isOkE] at hok⟩
            | ok rest => exact ⟨w1, by simp [hpre, hr, hw1], fun _ => hb1 rfl⟩
          all_goals {
            by_cases hif : (wrapOps C).isFalse (s, l) tag.key = true
            · simp only [if_pos hif]
              obtain ⟨w1, hw1, hb1⟩ := ih templ tag.end_ endTag.start st2 s l
              rcases hr1 : renderLoopE (wrapOps C) fuel templ tag.end_ endTag.start st2 (s, l)
                with ⟨res1, st3, s3⟩
              rw [hr1] at hw1 hb1
              replace hw1 : s3.2 = l ++ w1 := hw1
              cases res1 with
              | error pe =>
                exact ⟨w1, by simp [hpre, hr1, hw1], fun hok => by simp [isOkE] at hok⟩
              | ok body =>
                obtain ⟨w2, hw2, hb2⟩ := ih templ endTag.end_ b st3 s3.1 s3.2
                simp only [Prod.mk.eta] at hw2 hb2
                rcases hr2 : renderLoopE (wrapOps C) fuel templ endTag.end_ b st3 s3
                  with ⟨res2, st4, s4⟩
                rw [hr2] at hw2 hb2
                replace hw2 : s4.2 = s3.2 ++ w2 := hw2
                cases res2 with
                | error pe =>
                  refine ⟨w1 ++ w2, ?_, fun hok => by simp [hpre, hr1, hr2, isOkE] at hok⟩
                  simp only [hpre, hr1, hr2]
                  show s4.2 = l ++ (w1 ++ w2)
                  rw [hw2, hw1, List.append_assoc]
                | ok rest =>
                  refine ⟨w1 ++ w2, ?_, fun _ => dyck_append w1 w2 (hb1 rfl) (hb2 rfl)⟩
                  simp only [hpre, hr1, hr2]
                  show s4.2 = l ++ (w1 ++ w2)
                  rw [hw2, hw1, List.append_assoc]
            · simp only [if_neg hif]
              obtain ⟨w1, hw1, hb1⟩ := ih templ endTag.end_ b st2 s l
              rcases hr : renderLoopE (wrapOps C) fuel templ endTag.end_ b st2 (s, l)
                with ⟨res1, st3, s3⟩
              rw [hr] at hw1 hb1
              replace hw1 : s3.2 = l ++ w1 := hw1
              cases res1 with
              | error pe =>
                exact ⟨w1, by simp [hpre, hr, hw1], fun hok => by simp [isOkE] at hok⟩
              | ok rest => exact ⟨w1, by simp [hpre, hr, hw1], fun _ => hb1 rfl⟩
          }
      | Partial =>
        cases hpre : substrE templ a tag.start with
        | error p => exact ⟨[], by simp [hpre], fun _ => rfl⟩
        | ok pre =>
          obtain ⟨hstate, hokeq⟩ := dispatchPartialE_state (wrapOps C)
            (renderLoopE (wrapOps C) fuel) tag st1 (s, l)
          obtain ⟨w1, hw1, hb1⟩ := ih (partialContentE (wrapOps C) tag (s, l)) 0
            (partialContentE (wrapOps C) tag (s, l)).length (partialEntryState st1 tag.key) s l
          rcases hd : dispatchPartialE (wrapOps C) (renderLoopE (wrapOps C) fuel) tag st1 (s, l)
            with ⟨res1, st2, s2⟩
          rw [hd] at hstate hokeq
          rcases hr : renderLoopE (wrapOps C) fuel (partialContentE (wrapOps C) tag (s, l)) 0
              (partialContentE (wrapOps C) tag (s, l)).length (partialEntryState st1 tag.key)
              (s, l) with ⟨resx, stx, sx⟩
          rw [hr] at hstate hokeq hw1 hb1
          replace hstate : s2 = sx := hstate
          replace hokeq : isOkE res1 = isOkE resx := hokeq
          replace hw1 : sx.2 = l ++ w1 := hw1
          obtain ⟨w2, hw2, hb2⟩ := ih templ tag.end_ b st2 s2.1 s2.2
          simp only [Prod.mk.eta] at hw2 hb2
          rcases hr2 : renderLoopE (wrapOps C) fuel templ tag.end_ b st2 s2 with ⟨res2, st3, s3⟩
          rw [hr2] at hw2 hb2
          replace hw2 : s3.2 = s2.2 ++ w2 := hw2
          cases res1 with
          | error p =>
            refine ⟨w1, ?_, fun hok => by simp [isOkE] at hok⟩
            simp only [hpre, hd]
            show s2.2 = l ++ w1
            rw [hstate, hw1]
          | ok piece =>
            have hxok : isOkE resx = true := by rw [← hokeq]; rfl
            cases res2 with
            | error p2 =>
              refine ⟨w1 ++ w2, ?_, fun hok => by simp [hpre, hd, hr2, isOkE] at hok⟩
              simp only [hpre, hd, hr2]
              show s3.2 = l ++ (w1 ++ w2)
              rw [hw2, hstate, hw1, List.append_assoc]
            | ok rest =>
              refine ⟨w1 ++ w2, ?_, fun _ => dyck_append w1 w2 (hb1 hxok) (hb2 rfl)⟩
              simp only [hpre, hd, hr2]
              show s3.2 = l ++ (w1 ++ w2)
              rw [hw2, hstate, hw1, List.append_assoc]
      | SetDelimiter =>
        cases hpre : substrE templ a tag.start with
        | error p => exact ⟨[], by simp [hpre], fun _ => rfl⟩
        | ok pre =>
          obtain ⟨w1, hw1, hb1⟩ := ih templ tag.end_ b st1 s l
          rcases hr : renderLoopE (wrapOps C) fuel templ tag.end_ b st1 (s, l)
            with ⟨res1, st2, s2⟩
          rw [hr] at hw1 hb1
          replace hw1 : s2.2 = l ++ w1 := hw1
          cases res1 with
          | error p => exact ⟨w1, by simp [hpre, hr, hw1], fun hok => by simp [isOkE] at hok⟩
          | ok rest => exact ⟨w1, by simp [hpre, hr, hw1], fun _ => hb1 rfl⟩
      | Comment =>
        cases hpre : substrE templ a tag.start with
        | error p => exact ⟨[], by simp [hpre], fun _ => rfl⟩
        | ok pre =>
          obtain ⟨w1, hw1, hb1⟩ := ih templ tag.end_ b st1 s l
          rcases hr : renderLoopE (wrapOps C) fuel templ tag.end_ b st1 (s, l)
            with ⟨res1, st2, s2⟩
          rw [hr] at hw1 hb1
          replace hw1 : s2.2 = l ++ w1 := hw1
          cases res1 with
          | error p => exact ⟨w1, by simp [hpre, hr, hw1], fun hok => by simp [isOkE] at hok⟩
          | ok rest => exact ⟨w1, by simp [hpre, hr, hw1], fun _ => hb1 rfl⟩
      | SectionEnd =>
        cases hpre : substrE templ a tag.start with
        | error p => exact ⟨[], by simp [hpre], fun _ => rfl⟩
        | ok pre =>
          obtain ⟨w1, hw1, hb1⟩ := ih templ tag.end_ b (setError st1 errUnexpectedEnd tag.start) s l
          rcases hr : renderLoopE (wrapOps C) fuel templ tag.end_ b
              (setError st1 errUnexpectedEnd tag.start) (s, l) with ⟨res1, st2, s2⟩
          rw [hr] at hw1 hb1
          replace hw1 : s2.2 = l ++ w1 := hw1
          cases res1 with
          | error p => exact ⟨w1, by simp [hpre, hr, hw1], fun hok => by simp [isOkE] at hok⟩
          | ok rest => exact ⟨w1, by simp [hpre, hr, hw1], fun _ => hb1 rfl⟩
/-- C10 (counterexample): the push/pop balance claimed for every path fails on a
throwing path. Rendering the template "\x7b\x7b#k}}\x7b\x7b>p}}\x7b\x7b/k}}" with k true
and partial p whose content is "\x7b\x7b\x7bx}}" (a raw tag whose extra closing brace is
missing at end of input), the C1 span overrun makes the partial body's substr call throw
std::out_of_range at position 7; the exception unwinds out of the section body between
context->push and context->pop, so the recorded operation log is a lone unmatched push -
not a Dyck word - and the context stack is left one frame deeper (2 frames) than it
started (1 frame). -/
theorem c10_throw_skips_pop :
    errPosE (renderLoopE (wrapOps reviewOps) 20 ("{{#k}}{{>p}}{{/k}}".toList) 0 18
      (initState defaultStart defaultEnd)
      ([Json.obj [(['k'], Json.bool true)]], [])).1 = some 7 ∧
    ((renderLoopE (wrapOps reviewOps) 20 ("{{#k}}{{>p}}{{/k}}".toList) 0 18
      (initState defaultStart defaultEnd)
      ([Json.obj [(['k'], Json.bool true)]], [])).2.2).2 = [COp.push] ∧
    ((renderLoopE (wrapOps reviewOps) 20 ("{{#k}}{{>p}}{{/k}}".toList) 0 18
      (initState defaultStart defaultEnd)
      ([Json.obj [(['k'], Json.bool true)]], [])).2.2).1.length = 2 ∧
    dyckAux [COp.push] 0 ≠ some 0 := by
  refine ⟨by decide, by decide, by decide, by decide⟩

/-- C10 (amended): on every run of the exception-aware render loop that completes
without a throw (the result is `Except.ok`), the logged push/pop sequence is a balanced
Dyck word: every push is matched by exactly one later pop, no prefix pops more than it
pushed, and the context stack returns to exactly its entry depth. When the
out-of-range throw made reachable by the C1 raw-tag overrun escapes instead, the unwind
skips the pops that follow the recursive render calls, leaving pushes unmatched, as the
counterexample shows. -/
theorem c10_push_pop_balanced_no_throw {σ : Type} (C : ContextOps σ)
    (fuel : Nat) (templ : List Char) (a b : Nat) (st : RendererState) (s : σ)
    (h : isOkE (renderLoopE (wrapOps C) fuel templ a b st (s, [])).1 = true) :
    dyckAux ((renderLoopE (wrapOps C) fuel templ a b st (s, [])).2.2).2 0 = some 0 := by
  obtain ⟨w, hw, hb⟩ := renderLoopE_log C fuel templ a b st s []
  rw [hw, List.nil_append]
  exact hb h

theorem c10_push_pop_balanced_no_throw_witness :
    dyckAux ((renderLoopE (wrapOps jsonOps) 20 ("{{#k}}x{{/k}}".toList) 0 13
      (initState defaultStart defaultEnd)
      ([Json.obj [(['k'], Json.bool true)]], [])).2.2).2 0 = some 0 :=
  c10_push_pop_balanced_no_throw jsonOps 20 ("{{#k}}x{{/k}}".toList) 0 13
    (initState defaultStart defaultEnd) [Json.obj [(['k'], Json.bool true)]] (by decide)
